import Mathlib

/-! # deer-common: compile providers and problem-package validation

A shallow embedding of `provider/main.go`, `provider/python.go` and
`persistence/problems/reader_zip.go`, and theorems on what the code does.

A Go string is a sequence of bytes. It is embedded as a `String`, each element standing
for one byte, so that lengths, indices and slices are those of Go. The library functions
the code calls (`strings.Index`, `strings.Split`, `fmt.Sprintf`, `path.Join`,
`path.Clean`, `os.Stat`, `os.OpenFile`, `os.Remove`, ...) are embedded after the Go
standard library.

The operating system is explicit state (`World`): a finite table of path names, an
oracle of injected faults (permissions, full device), the log of spawned
processes and the lines written by `log.Println`. A Go `error` is an `Option GoError`,
`none` being `nil`. The identifiers that `uuid.NewV4()` draws are inputs of `initFiles`
and `Init`.
-/

set_option autoImplicit false

namespace DeerCommon

/-! ## Go `error` values -/

/-- Error numbers the file-system model can report. -/
inductive Errno
  | ENOENT | EACCES | EISDIR | ENOTDIR | ENOTEMPTY | ENOSPC | EBADF
  deriving DecidableEq, Repr

/-- Text of an error number, as `syscall.Errno.Error` prints it. -/
def Errno.text : Errno → String
  | .ENOENT => "no such file or directory"
  | .EACCES => "permission denied"
  | .EISDIR => "is a directory"
  | .ENOTDIR => "not a directory"
  | .ENOTEMPTY => "directory not empty"
  | .ENOSPC => "no space left on device"
  | .EBADF => "bad file descriptor"

/-- A non-nil Go `error`: an `*os.PathError` or an error built from a message
(`errors.Errorf`, library errors). `Option GoError` is the Go type `error`, `none` being `nil`. -/
inductive GoError
  | pathError (op path : String) (errno : Errno)
  | errorf (msg : String)
  deriving DecidableEq, Repr

/-- The method `Error()`. -/
def GoError.Error : GoError → String
  | .pathError op path errno => op ++ " " ++ path ++ ": " ++ errno.text
  | .errorf msg => msg

/-! ## Package `strings` -/

namespace strings

/-- Scan of `strings.Index` over the text still to read: the offset of the first place
where `substr` starts, `i` being the offset of the text's first element; `-1` when there is none. -/
def indexFrom (substr : List Char) : List Char → Nat → Int
  | [], i => if substr = [] then (i : Int) else -1
  | c :: t, i => if substr.isPrefixOf (c :: t) then (i : Int) else indexFrom substr t (i + 1)

/-- Go `strings.Index(s, substr)`: index of the first instance of `substr` in `s`, or `-1`. -/
def Index (s substr : String) : Int := indexFrom substr.data s.data 0

/-- Go `strings.Contains(s, substr)`: `Index(s, substr) >= 0`. -/
def Contains (s substr : String) : Bool := decide (Index s substr ≥ 0)

/-- Go slice expression `s[lo:]`. -/
def sliceFrom (s : String) (lo : Nat) : String := ⟨s.data.drop lo⟩

/-- Go slice expression `s[:hi]`. -/
def sliceTo (s : String) (hi : Nat) : String := ⟨s.data.take hi⟩

/-- Loop of `strings.Count` for a non-empty `substr`: `n` instances counted so far.
The Go loop has no bound; every round drops at least one element of `s`, so
`len(s) + 1` rounds of fuel always reach the `return`. -/
def countLoop (substr : String) : Nat → String → Nat → Nat
  | 0, _, n => n
  | fuel + 1, s, n =>
    let i := Index s substr
    if i = -1 then n
    else countLoop substr fuel (sliceFrom s (i.toNat + substr.length)) (n + 1)

/-- Go `strings.Count(s, substr)`: number of non-overlapping instances of `substr` in `s`;
`len(s) + 1` for the empty `substr`. -/
def Count (s substr : String) : Nat :=
  if substr.length = 0 then s.length + 1
  else countLoop substr (s.length + 1) s 0

/-- Go `strings.explode(s, n)`: `s` cut into single elements, at most `n` pieces
(`n < 0`: no limit), the last piece holding the rest. Go cuts at UTF-8 sequences, which
are single bytes for ASCII text; only the empty separator leads here, and the code never
splits at it. -/
def explode (s : String) (n : Int) : List String :=
  let l := s.length
  let n := if n < 0 ∨ n > (l : Int) then l else n.toNat
  if n = 0 then []
  else (s.data.take (n - 1)).map String.singleton ++ [sliceFrom s (n - 1)]

/-- Loop of `strings.genSplit`: `for i < n { m := Index(s, sep); if m < 0 { break }; ... }`
followed by `a[i] = s`; the first argument is the number of rounds left (`n - i`). -/
def splitLoop (sep : String) (sepSave : Nat) : Nat → String → List String
  | 0, s => [s]
  | k + 1, s =>
    let m := Index s sep
    if m < 0 then [s]
    else sliceTo s (m.toNat + sepSave) :: splitLoop sep sepSave k (sliceFrom s (m.toNat + sep.length))

/-- Go `strings.genSplit(s, sep, sepSave, n)`. -/
def genSplit (s sep : String) (sepSave : Nat) (n : Int) : List String :=
  if n = 0 then []
  else if sep = "" then explode s n
  else
    let n : Nat := if n < 0 then Count s sep + 1 else n.toNat
    splitLoop sep sepSave (n - 1) s

/-- Go `strings.Split(s, sep)`: `genSplit(s, sep, 0, -1)`. -/
def Split (s sep : String) : List String := genSplit s sep 0 (-1)

end strings

/-! ## Package `fmt` -/

namespace fmt

/-- The tail `%!(EXTRA string=a, string=b)` that `Sprintf` adds for operands no verb used. -/
def extraOperands : List String → String
  | [] => ""
  | args => "%!(EXTRA " ++ ", ".intercalate (args.map fun a => "string=" ++ a) ++ ")"

/-- Scan of the format by `Sprintf`, all operands being strings. -/
def sprintfLoop : List Char → List String → String
  | [], args => extraOperands args
  | c :: t, args =>
    if c = '%' then
      match t, args with
      | [], _ => "%!(NOVERB)" ++ extraOperands args
      | v :: t2, [] =>
        if v = '%' then "%" ++ sprintfLoop t2 []
        else "%!" ++ String.singleton v ++ "(MISSING)" ++ sprintfLoop t2 []
      | v :: t2, a :: rest =>
        if v = '%' then "%" ++ sprintfLoop t2 (a :: rest)
        else if v = 's' ∨ v = 'v' then a ++ sprintfLoop t2 rest
        else if v = 'T' then "string" ++ sprintfLoop t2 rest
        else "%!" ++ String.singleton v ++ "(string=" ++ a ++ ")" ++ sprintfLoop t2 rest
    else String.singleton c ++ sprintfLoop t args

/-- Go `fmt.Sprintf(format, args...)` for string operands and a format whose every `%` is
followed at once by the verb. Literal text, `%%`, `%s`, `%v` and `%T` (the operand's type,
`string`) print as Go prints them, as do a missing operand, a format ending in `%`, a
verb that does not take a string (`%d`, `%p`, ...) and operands left over. Outside the
model: the verbs `%q`, `%x` and `%X`, and everything Go reads between the `%` and the
verb (the flags `+`, `-`, `#`, blank and `0`, widths, precisions, `*` and argument
indexes `[n]`). No template or format of the code uses any of these. -/
def Sprintf (format : String) (args : List String) : String := sprintfLoop format.data args

end fmt

/-! ## Package `path` -/

namespace path

/-- The backtracking of `path.Clean` at a `..` element, started after `out.w--`:
`for out.w > dotdot && out.index(out.w) != '/' { out.w-- }`. The argument is `out.w`,
the result its final value; `out` is the buffer before the `..` was read. -/
def backtrack (out : List Char) (dotdot : Nat) : Nat → Nat
  | 0 => 0
  | w + 1 => if w + 1 > dotdot ∧ out[w + 1]? ≠ some '/' then backtrack out dotdot w else w + 1

/-- One round of the main loop of `path.Clean`, the unread input being `c :: t`
(`path[r:]`): the input left to read, the buffer `out` (`buf[:w]` of the lazybuf) and
`dotdot` (the index where `..` must stop) after the round. -/
def cleanStep (rooted : Bool) (c : Char) (t : List Char) (out : List Char) (dotdot : Nat) :
    List Char × List Char × Nat :=
  if c = '/' then
    -- empty path element
    (t, out, dotdot)
  else if c = '.' ∧ (t = [] ∨ t.head? = some '/') then
    -- . element
    (t, out, dotdot)
  else if c = '.' ∧ t.head? = some '.' ∧ (t.tail = [] ∨ t.tail.head? = some '/') then
    -- .. element: remove to last /
    if out.length > dotdot then
      -- can backtrack
      (t.tail, out.take (backtrack out dotdot (out.length - 1)), dotdot)
    else if !rooted then
      -- cannot backtrack, but not rooted, so append .. element.
      let out1 := if out.length > 0 then out ++ ['/'] else out
      let out2 := out1 ++ ['.', '.']
      (t.tail, out2, out2.length)
    else
      (t.tail, out, dotdot)
  else
    -- real path element: add slash if needed, copy element
    let out1 :=
      if (rooted ∧ out.length ≠ 1) ∨ (!rooted ∧ out.length ≠ 0) then out ++ ['/'] else out
    ((c :: t).dropWhile (· ≠ '/'), out1 ++ (c :: t).takeWhile (· ≠ '/'), dotdot)

/-- The main loop of `path.Clean`, `for r < n { ... }`, from the unread input, the buffer
and `dotdot`; the result is the final buffer. Every round reads at least one byte, so
`len(rest)` rounds of fuel finish the input. -/
def cleanLoop (rooted : Bool) : Nat → List Char → List Char → Nat → List Char
  | 0, _, out, _ => out
  | _ + 1, [], out, _ => out
  | fuel + 1, c :: t, out, dotdot =>
    let r := cleanStep rooted c t out dotdot
    cleanLoop rooted fuel r.1 r.2.1 r.2.2

/-- The buffer of `path.Clean` after a real path element is copied to it: a slash is
added first unless the buffer is empty (or the lone slash of a rooted path). -/
def appendElem (rooted : Bool) (out elem : List Char) : List Char :=
  (if (rooted ∧ out.length ≠ 1) ∨ (!rooted ∧ out.length ≠ 0) then out ++ ['/'] else out) ++ elem

/-- A buffer that is empty or starts with an element other than the empty one and `.`:
what the buffer of `path.Clean` is on an unrooted path while no `..` was kept. -/
def Good (out : List Char) : Prop :=
  out = [] ∨
    (out.head? ≠ some '/' ∧ ¬ (out.head? = some '.' ∧ (out.tail = [] ∨ out.tail.head? = some '/')))

/-- The path name of the entry `name` of the directory whose cleaned path name is `dir`:
`dir`, a slash and `name`, the slash being left out after the root `/` and the whole
`dir` when it is the current directory `.`. -/
def childPath (dir name : String) : String :=
  if dir = "." then name else if dir = "/" then "/" ++ name else dir ++ "/" ++ name

/-- Go `path.Clean(path)`: the shortest path name equivalent to `path` by purely lexical
processing. -/
def Clean (path : String) : String :=
  if path = "" then "."
  else
    let rooted := path.data.head? = some '/'
    let out :=
      if rooted then cleanLoop true path.length path.data.tail ['/'] 1
      else cleanLoop false path.length path.data [] 0
    -- Turn empty string into "."
    if out.length = 0 then "." else ⟨out⟩

/-- The loop of `path.Join` that glues the non-empty elements with slashes. -/
def joinBuf : List String → String → String
  | [], buf => buf
  | e :: es, buf =>
    if buf.length > 0 ∨ e ≠ "" then
      joinBuf es ((if buf.length > 0 then buf ++ "/" else buf) ++ e)
    else joinBuf es buf

/-- Go `path.Join(elem...)`: the elements joined with slashes and cleaned; empty elements
are ignored, and the result is empty when every element is. -/
def Join (elem : List String) : String :=
  let size := (elem.map String.length).sum
  if size = 0 then "" else Clean (joinBuf elem "")

end path

/-! ## The operating system as explicit state -/

/-- What a path names: a regular file with its content, or a directory. -/
inductive Node
  | file (content : String)
  | dir
  deriving DecidableEq, Repr

/-- The system calls the code makes on a path. -/
inductive Op
  | stat | openFile | write | remove
  deriving DecidableEq, Repr

/-- The world the code runs in.
* `files`: the path names that exist, with what each names; a path is looked up as
  written (no symbolic links, no normalisation);
* `fault`: the failures the system injects into a call on a path for reasons the table
  does not hold (permissions, a missing or non-directory parent, a full device); the
  code never changes it;
* `spawned`: the processes started through `utils.RunUnixShell`, oldest first, each with
  its executable name and arguments;
* `logged`: the lines written by `log.Println`, oldest first. -/
structure World where
  files : List (String × Node)
  fault : Op → String → Option Errno
  spawned : List (String × List String)
  logged : List String

/-- The node a table holds for a path. -/
def lookupNode : List (String × Node) → String → Option Node
  | [], _ => none
  | (k, v) :: t, name => if k = name then some v else lookupNode t name

/-- What `name` names in the world, if anything. -/
def World.node (w : World) (name : String) : Option Node := lookupNode w.files name

/-- The table without `name`. -/
def eraseNode (files : List (String × Node)) (name : String) : List (String × Node) :=
  files.filter fun e => decide (e.1 ≠ name)

/-- Some path of the table lies strictly below `name` (starts with `name` and a slash). -/
def hasChild (files : List (String × Node)) (name : String) : Bool :=
  files.any fun e => (name ++ "/").data.isPrefixOf e.1.data

namespace os

/-- Go `os.Stat(name)`, its error result (the code ignores the `FileInfo`). -/
def Stat (w : World) (name : String) : Option GoError :=
  match w.fault .stat name with
  | some e => some (.pathError "stat" name e)
  | none =>
    match w.node name with
    | none => some (.pathError "stat" name .ENOENT)
    | some _ => none

/-- Go `os.IsNotExist(err)` for a non-nil `err`. -/
def IsNotExist : GoError → Bool
  | .pathError _ _ .ENOENT => true
  | _ => false

/-- Go `os.OpenFile(name, os.O_RDWR|os.O_CREATE, 0644)`: opens the regular file `name`,
creating it empty when nothing has that name; the file is not truncated. The handle is
the name itself. -/
def OpenFile (w : World) (name : String) : Option GoError × World :=
  match w.fault .openFile name with
  | some e => (some (.pathError "open" name e), w)
  | none =>
    match w.node name with
    | some (.file _) => (none, w)
    | some .dir => (some (.pathError "open" name .EISDIR), w)
    | none => (none, { w with files := (name, .file "") :: w.files })

/-- Go `(*os.File).WriteString(s)` on a handle just opened on `name`: `s` overwrites the
file from offset 0, what the file held beyond `len(s)` stays. A failing write writes
nothing (short writes are not modelled). -/
def WriteString (w : World) (name : String) (s : String) : Option GoError × World :=
  match w.fault .write name with
  | some e => (some (.pathError "write" name e), w)
  | none =>
    match w.node name with
    | some (.file old) =>
      (none, { w with files := (name, .file (s ++ strings.sliceFrom old s.length)) :: eraseNode w.files name })
    | _ => (some (.pathError "write" name .EBADF), w)

/-- Go `os.Remove(name)`: removes the named file or empty directory. -/
def Remove (w : World) (name : String) : Option GoError × World :=
  match w.fault .remove name with
  | some e => (some (.pathError "remove" name e), w)
  | none =>
    match w.node name with
    | none => (some (.pathError "remove" name .ENOENT), w)
    | some (.file _) => (none, { w with files := eraseNode w.files name })
    | some .dir =>
      if hasChild w.files name then (some (.pathError "remove" name .ENOTEMPTY), w)
      else (none, { w with files := eraseNode w.files name })

end os

/-- Go `errors.Errorf(format, args...)` of `github.com/pkg/errors`, for string operands. -/
def errors.Errorf (format : String) (args : List String) : GoError :=
  .errorf (fmt.Sprintf format args)

/-- Go `log.Println(line)`: one more line on the log. -/
def log.Println (w : World) (line : String) : World :=
  { w with logged := w.logged ++ [line] }

/-! ## Package `github.com/satori/go.uuid` -/

/-- A lower-case hexadecimal digit. -/
def isLowerHex (c : Char) : Bool :=
  decide (('0' ≤ c ∧ c ≤ '9') ∨ ('a' ≤ c ∧ c ≤ 'f'))

/-- The text form of `uuid.UUID.String`: 36 characters, lower-case hexadecimal digits in
groups of 8, 4, 4, 4 and 12 with a hyphen between the groups. The texts of
`uuid.NewV4().String()` are of this form; which one a call returns is an input of the model. -/
def isCanonicalUUID (id : String) : Bool :=
  decide (id.length = 36) &&
    id.data.all (fun c => decide (c = '-') || isLowerHex c) &&
    decide (id.data[8]? = some '-') && decide (id.data[13]? = some '-') &&
    decide (id.data[18]? = some '-') && decide (id.data[23]? = some '-') &&
    decide (id.data.count '-' = 4)

/-! ## `provider/main.go` -/

/-- The command templates, one a language (`CompileCommandsStruct`). -/
structure CompileCommandsStruct where
  GNUC : String
  GNUCPP : String
  Java : String
  Go : String
  NodeJS : String
  PHP : String
  Ruby : String
  Python2 : String
  Python3 : String
  Rust : String
  deriving DecidableEq, Repr

/-- The default templates: the initial value of the package variable `CompileCommands`. -/
def CompileCommands : CompileCommandsStruct where
  GNUC := "gcc %s -o %s -ansi -fno-asm -Wall -std=c11 -lm"
  GNUCPP := "g++ %s -o %s -ansi -fno-asm -Wall -lm -std=c++11"
  Java := "javac -encoding utf-8 %s -d %s"
  Go := "go build -o %s %s"
  NodeJS := "node -c %s"
  PHP := "php -l -f %s"
  Ruby := "ruby -c %s"
  Python2 := "python -u %s"
  Python3 := "python3 -u %s"
  Rust := "rustc %s -o %s"

/-- The state shared by all bindings (`CodeCompileProvider`; the embedded interface value,
never set by the code, is left out). -/
structure CodeCompileProvider where
  Name : String
  codeContent : String
  realTime : Bool
  isReady : Bool
  codeFileName : String
  codeFilePath : String
  programFileName : String
  programFilePath : String
  workDir : String
  deriving DecidableEq, Repr

/-- What `utils.RunUnixShell` is given (`structs.ShellOptions`): the executable and its
arguments. The context with its ten-second deadline and the nil writer and callback are
not part of the model. -/
structure ShellOptions where
  Name : String
  Args : List String
  deriving DecidableEq, Repr

/-- What `utils.RunUnixShell` returns beside its error: the fields `shell` reads. -/
structure ShellResult where
  Success : Bool
  Stderr : String
  deriving DecidableEq, Repr

/-- `utils.RunUnixShell(&opts)`: what the runner answers for the options, and the world
after the call, in which the process it started is on record. The runner belongs to the
package `utils`; its behaviour `run` is a parameter, any function from the options to a
result and an error. What the started process does to the files is not modelled. -/
def utils.RunUnixShell (run : ShellOptions → ShellResult × Option GoError)
    (opts : ShellOptions) (w : World) : (ShellResult × Option GoError) × World :=
  (run opts, { w with spawned := w.spawned ++ [(opts.Name, opts.Args)] })

namespace CodeCompileProvider

/-- `saveCode`: opens (creating it if need be) the source file and writes the code. -/
def saveCode (prov : CodeCompileProvider) (w : World) : Option GoError × World :=
  match os.OpenFile w prov.codeFilePath with
  | (some err, w1) => (some err, w1)
  | (none, w1) => os.WriteString w1 prov.codeFilePath prov.codeContent

/-- `initFiles`: names the source and program files after two fresh identifiers and saves
the code. `id1` and `id2` are the texts of the two `uuid.NewV4().String()` calls. -/
def initFiles (prov : CodeCompileProvider) (codeExt programExt : String) (id1 id2 : String)
    (w : World) : Option GoError × CodeCompileProvider × World :=
  let prov := { prov with codeFileName := fmt.Sprintf "%s%s" [id1, codeExt] }
  let prov := { prov with programFileName := fmt.Sprintf "%s%s" [id2, programExt] }
  let prov := { prov with codeFilePath := path.Join [prov.workDir, prov.codeFileName] }
  let prov := { prov with programFilePath := path.Join [prov.workDir, prov.programFileName] }
  let (err, w) := saveCode prov w
  (err, prov, w)

/-- `GetName`. -/
def GetName (prov : CodeCompileProvider) : String := prov.Name

/-- `Clean`: removes the source and the program file, dropping both results of `os.Remove`. -/
def Clean (prov : CodeCompileProvider) (w : World) : CodeCompileProvider × World :=
  let (_, w) := os.Remove w prov.codeFilePath
  let (_, w) := os.Remove w prov.programFilePath
  (prov, w)

/-- `shell`: splits the command line at blanks and runs it through `utils.RunUnixShell`;
`run` is the behaviour of that runner. -/
def shell (run : ShellOptions → ShellResult × Option GoError)
    (prov : CodeCompileProvider) (commands : String) (w : World) :
    (Bool × String) × CodeCompileProvider × World :=
  let cmdArgs := strings.Split commands " "
  if cmdArgs.length ≤ 1 then ((false, "not enough arguments for compiler"), prov, w)
  else
    match utils.RunUnixShell run { Name := cmdArgs.headD "", Args := cmdArgs.tail } w with
    | ((_, some err), w) => ((false, err.Error), prov, w)
    | ((ret, none), w) =>
      if !ret.Success then ((false, ret.Stderr), prov, w)
      else ((true, ""), prov, w)

/-- `checkWorkDir`. -/
def checkWorkDir (prov : CodeCompileProvider) (w : World) : Option GoError :=
  match os.Stat w prov.workDir with
  | some err =>
    if os.IsNotExist err then some (errors.Errorf "work dir not exists" [])
    else some err
  | none => none

/-- `IsRealTime`. -/
def IsRealTime (prov : CodeCompileProvider) : Bool := prov.realTime

/-- `IsReady`. -/
def IsReady (prov : CodeCompileProvider) : Bool := prov.isReady

end CodeCompileProvider

/-! ## `provider/python.go` -/

/-- What the `Init` of either Python binding does once it has assigned its fields: it
checks the work directory, names and saves the source, and sets `isReady` when
`initFiles` returned nil; an error of `initFiles` is answered with `return nil`. -/
def initCore (prov : CodeCompileProvider) (id1 id2 : String) (w : World) :
    Option GoError × CodeCompileProvider × World :=
  match prov.checkWorkDir w with
  | some err => (some err, prov, w)
  | none =>
    match prov.initFiles ".py" "" id1 id2 w with
    | (some _, base, w) => (none, base, w)
    | (none, base, w) => (none, { base with isReady := true }, w)

/-- The Python 2 binding. -/
structure Py2CompileProvider extends CodeCompileProvider
  deriving DecidableEq, Repr

/-- The Python 3 binding. -/
structure Py3CompileProvider extends CodeCompileProvider
  deriving DecidableEq, Repr

/-- The zero value of `CodeCompileProvider`. -/
def CodeCompileProvider.zero : CodeCompileProvider where
  Name := ""
  codeContent := ""
  realTime := false
  isReady := false
  codeFileName := ""
  codeFilePath := ""
  programFileName := ""
  programFilePath := ""
  workDir := ""

/-- `NewPy2CompileProvider`. -/
def NewPy2CompileProvider : Py2CompileProvider :=
  { toCodeCompileProvider :=
      { CodeCompileProvider.zero with isReady := false, realTime := true, Name := "python2" } }

/-- `NewPy3CompileProvider`. -/
def NewPy3CompileProvider : Py3CompileProvider :=
  { toCodeCompileProvider :=
      { CodeCompileProvider.zero with isReady := false, realTime := true, Name := "python3" } }

namespace Py2CompileProvider

/-- `Init` of the Python 2 binding. `id1`, `id2` are the identifiers `initFiles` draws. -/
def Init (prov : Py2CompileProvider) (code workDir : String) (id1 id2 : String) (w : World) :
    Option GoError × Py2CompileProvider × World :=
  let prov : Py2CompileProvider :=
    { toCodeCompileProvider :=
        { prov.toCodeCompileProvider with
          realTime := true, codeContent := code, workDir := workDir, Name := "python2" } }
  match prov.checkWorkDir w with
  | some err => (some err, prov, w)
  | none =>
    match prov.initFiles ".py" "" id1 id2 w with
    | (some _, base, w) => (none, { toCodeCompileProvider := base }, w)
    | (none, base, w) => (none, { toCodeCompileProvider := { base with isReady := true } }, w)

/-- `Compile` of the Python 2 binding. -/
def Compile (prov : Py2CompileProvider) (w : World) :
    (Bool × String) × Py2CompileProvider × World :=
  ((true, ""), prov, w)

/-- `GetRunArgs` of the Python 2 binding; `cmds` is the current value of the package
variable `CompileCommands`. -/
def GetRunArgs (cmds : CompileCommandsStruct) (prov : Py2CompileProvider) : List String :=
  let argsRaw := fmt.Sprintf cmds.Python2 [prov.codeFilePath]
  strings.Split argsRaw " "

/-- `IsCompileError` of the Python 2 binding. -/
def IsCompileError (_prov : Py2CompileProvider) (remsg : String) : Bool :=
  strings.Contains remsg "SyntaxError" ||
    strings.Contains remsg "IndentationError" ||
    strings.Contains remsg "ImportError"

end Py2CompileProvider

namespace Py3CompileProvider

/-- `Init` of the Python 3 binding. `id1`, `id2` are the identifiers `initFiles` draws. -/
def Init (prov : Py3CompileProvider) (code workDir : String) (id1 id2 : String) (w : World) :
    Option GoError × Py3CompileProvider × World :=
  let prov : Py3CompileProvider :=
    { toCodeCompileProvider :=
        { prov.toCodeCompileProvider with codeContent := code, workDir := workDir } }
  match prov.checkWorkDir w with
  | some err => (some err, prov, w)
  | none =>
    match prov.initFiles ".py" "" id1 id2 w with
    | (some _, base, w) => (none, { toCodeCompileProvider := base }, w)
    | (none, base, w) => (none, { toCodeCompileProvider := { base with isReady := true } }, w)

/-- `Compile` of the Python 3 binding. -/
def Compile (prov : Py3CompileProvider) (w : World) :
    (Bool × String) × Py3CompileProvider × World :=
  ((true, ""), prov, w)

/-- `GetRunArgs` of the Python 3 binding; `cmds` is the current value of the package
variable `CompileCommands`. -/
def GetRunArgs (cmds : CompileCommandsStruct) (prov : Py3CompileProvider) : List String :=
  let argsRaw := fmt.Sprintf cmds.Python3 [prov.codeFilePath]
  strings.Split argsRaw " "

/-- `IsCompileError` of the Python 3 binding. -/
def IsCompileError (_prov : Py3CompileProvider) (remsg : String) : Bool :=
  strings.Contains remsg "SyntaxError" ||
    strings.Contains remsg "IndentationError" ||
    strings.Contains remsg "ImportError"

end Py3CompileProvider

/-- The provider states the two bindings reach: fresh from a constructor, or after an
`Init` (drawing canonical UUID texts, in any world) from such a state. `Compile`,
`GetRunArgs` and `Clean` return the provider as it was. -/
inductive Reachable : CodeCompileProvider → Prop
  | newPy2 : Reachable NewPy2CompileProvider.toCodeCompileProvider
  | newPy3 : Reachable NewPy3CompileProvider.toCodeCompileProvider
  | initPy2 (prov : Py2CompileProvider) (code workDir id1 id2 : String) (w : World) :
    Reachable prov.toCodeCompileProvider → isCanonicalUUID id1 = true →
      isCanonicalUUID id2 = true →
      Reachable (prov.Init code workDir id1 id2 w).2.1.toCodeCompileProvider
  | initPy3 (prov : Py3CompileProvider) (code workDir id1 id2 : String) (w : World) :
    Reachable prov.toCodeCompileProvider → isCanonicalUUID id1 = true →
      isCanonicalUUID id2 = true →
      Reachable (prov.Init code workDir id1 id2 w).2.1.toCodeCompileProvider

/-- `os.Remove` leaves the world as it is on `name`: the call is refused by a fault, or
nothing has that name, or it names a directory that is not empty. -/
def Stuck (w : World) (name : String) : Prop :=
  w.fault .remove name ≠ none ∨ w.node name = none ∨
    (w.node name = some .dir ∧ hasChild w.files name = true)

/-! ## `persistence/problems/reader_zip.go` -/

/-- A Go `[]byte`: `none` is the nil slice, which `reflect.DeepEqual` tells apart from an
empty one. -/
abbrev Bytes := Option (List Nat)

/-- The `PublicKey` field of an OpenPGP primary key: an `*rsa.PublicKey` or a key of
another algorithm. -/
inductive PublicKey
  | rsa (key : Nat)
  | other
  deriving DecidableEq, Repr

/-- An opened problem package (`*zip.ReadCloser`) as `validateProblemPackageZip` sees it:
the results of the calls it makes into other packages and files
(`FindInZip`, `ioutil.ReadAll`, `persistence.SHA256Streams`, `openpgp.ReadArmoredKeyRing`,
`persistence.RSA2048Verify`). -/
structure ZipArchive where
  /-- The error of `FindInZip(zipArchive, "problem.json")`. -/
  findConfig : Option GoError
  /-- `ioutil.ReadAll(*configFile)`. -/
  readConfig : Bytes × Option GoError
  /-- `persistence.SHA256Streams` of the bytes read. -/
  sha256 : Bytes → Bytes × Option GoError
  /-- The error of `FindInZip(zipArchive, ".sign")`. -/
  findSign : Option GoError
  /-- `ioutil.ReadAll(*signFile)`. -/
  readSign : Bytes × Option GoError
  /-- `FindInZip(zipArchive, ".gpg")`: whether the reader returned is non-nil, and the error. -/
  findGPG : Bool × Option GoError
  /-- `openpgp.ReadArmoredKeyRing` of the `.gpg` entry: the primary public key of each
  entity, and the error. -/
  keyRing : List PublicKey × Option GoError
  /-- `persistence.RSA2048Verify(hash, signature, publicKey)`. -/
  verify : Bytes → Bytes → Nat → Option GoError

/-- `validateProblemPackageZip`; `none` is the run-time panic of the type assertion
`.(*rsa.PublicKey)` on a key that is not an RSA key. -/
def validateProblemPackageZip (zipArchive : ZipArchive) : Option (Bool × Option GoError) :=
  match zipArchive.findConfig with
  | some err => some (false, some err)
  | none =>
  match zipArchive.readConfig with
  | (_, some err) => some (false, some err)
  | (configBytes, none) =>
  match zipArchive.sha256 configBytes with
  | (_, some err) => some (false, some err)
  | (hash, none) =>
  match zipArchive.findSign with
  | some err => some (false, some err)
  | none =>
  match zipArchive.readSign with
  | (_, some err) => some (false, some err)
  | (signature, none) =>
  let (gpgFile, err) := zipArchive.findGPG
  let withGPG := if err ≠ none then false else true
  if withGPG ∧ gpgFile then
    match zipArchive.keyRing with
    | (_, some err) => some (false, some err)
    | (elist, none) =>
      if elist.length < 1 then some (false, some (errors.Errorf "GPG key error" []))
      else
        match elist.head? with
        | some (.rsa publicKey) =>
          match zipArchive.verify hash signature publicKey with
          | some err => some (false, some err)
          | none => some (true, none)
        | _ => none
  else some (decide (hash = signature), none)

/-- `doProblemPackageValidationZip`; `none` when `validateProblemPackageZip` panics. -/
def doProblemPackageValidationZip (zipArchive : ZipArchive) (validate : Bool) (w : World) :
    Option (Option GoError × World) :=
  match validateProblemPackageZip zipArchive with
  | none => none
  | some (ok, err) =>
    let errmsg : Option GoError := none
    let errmsg :=
      if !ok ∨ err ≠ none then
        let _errmsg :=
          match err with
          | some e => some (errors.Errorf "validate package hash error: %s" [e.Error])
          | none => errmsg
        some (errors.Errorf "validate package hash error" [])
      else errmsg
    match errmsg with
    | some e =>
      if validate then some (some e, w)
      else some (none, log.Println w "Warning! Package signature validation failed.")
    | none => some (none, w)

/-! ## Fixtures for the closed statements -/

/-- A world that holds the directory `/tmp/work` and nothing else, with no fault. -/
def workWorld : World where
  files := [("/tmp/work", .dir)]
  fault := fun _ _ => none
  spawned := []
  logged := []

/-- Two identifiers in the text form of `uuid.UUID.String`. -/
def sampleId1 : String := "3f2504e0-4f89-41d3-9a0c-0305e82c3301"

/-- The second sample identifier. -/
def sampleId2 : String := "9b2e7a10-1c3d-4e5f-8a6b-7c8d9e0f1a2b"

/-- The world of `workWorld` in which the directory `/tmp/work` is read-only: opening
(creating) the file named after `sampleId1` in it is refused. -/
def readOnlyWorld : World where
  files := [("/tmp/work", .dir)]
  fault := fun op name =>
    if op = .openFile ∧ name = "/tmp/work/3f2504e0-4f89-41d3-9a0c-0305e82c3301.py" then some .EACCES
    else none
  spawned := []
  logged := []

/-- A runner on a machine whose only program is `gcc`, and whose `gcc` accepts only the
arguments `a.c -o a`: any other program cannot be started, other arguments fail with a
message on the standard error. -/
def gccRunner (opts : ShellOptions) : ShellResult × Option GoError :=
  if opts.Name = "gcc" then
    if opts.Args = ["a.c", "-o", "a"] then ({ Success := true, Stderr := "" }, none)
    else ({ Success := false, Stderr := "gcc: fatal error: no input files" }, none)
  else ({ Success := false, Stderr := "" }, some (.errorf "executable file not found"))

/-- An archive whose entries are all found and read, without a `.gpg` entry; the
signature read is `sign`, the hash computed is `[1, 2, 3]`. -/
def plainArchive (sign : Bytes) : ZipArchive where
  findConfig := none
  readConfig := (some [0], none)
  sha256 := fun _ => (some [1, 2, 3], none)
  findSign := none
  readSign := (sign, none)
  findGPG := (false, some (.errorf "file not found: .gpg"))
  keyRing := ([], none)
  verify := fun _ _ _ => none

/-- A world that holds the directory `/tmp/my work`, whose name has a blank. -/
def blankWorld : World where
  files := [("/tmp/my work", .dir)]
  fault := fun _ _ => none
  spawned := []
  logged := []

/-- A world in which `/tmp/work` exists and the system refuses to remove the file named
after `sampleId1` in it (a permission error). -/
def lockedWorld : World where
  files := [("/tmp/work", .dir)]
  fault := fun op name =>
    if op = .remove ∧ name = "/tmp/work/3f2504e0-4f89-41d3-9a0c-0305e82c3301.py" then some .EACCES
    else none
  spawned := []
  logged := []

/-! ## Lemmas on `strings.Index` and `strings.Contains` -/

theorem strings.indexFrom_nonneg_iff (substr : List Char) (s : List Char) (i : Nat) :
    0 ≤ strings.indexFrom substr s i ↔ substr <:+: s := by
  induction s generalizing i with
  | nil =>
    by_cases h : substr = []
    · simp [strings.indexFrom, h]
    · simp [strings.indexFrom, h]
  | cons c t ih =>
    unfold strings.indexFrom
    by_cases hp : substr.isPrefixOf (c :: t) = true
    · rw [if_pos hp]
      have hpre : substr <+: c :: t := List.isPrefixOf_iff_prefix.mp hp
      exact ⟨fun _ => hpre.isInfix, fun _ => Int.ofNat_nonneg i⟩
    · rw [if_neg hp, ih (i + 1), List.infix_cons_iff]
      have hpre : ¬ substr <+: c :: t := fun h => hp (List.isPrefixOf_iff_prefix.mpr h)
      exact ⟨fun h => Or.inr h, fun h => h.resolve_left hpre⟩

theorem strings.contains_iff_infix (s substr : String) :
    strings.Contains s substr = true ↔ substr.data <:+: s.data := by
  unfold strings.Contains strings.Index
  rw [decide_eq_true_iff]
  exact strings.indexFrom_nonneg_iff substr.data s.data 0

theorem strings.contains_iff (s substr : String) :
    strings.Contains s substr = true ↔ ∃ a b : String, s = a ++ substr ++ b := by
  rw [strings.contains_iff_infix]
  constructor
  · rintro ⟨a, b, h⟩
    refine ⟨⟨a⟩, ⟨b⟩, ?_⟩
    apply String.ext
    simp [String.data_append, h]
  · rintro ⟨a, b, h⟩
    refine ⟨a.data, b.data, ?_⟩
    rw [h]
    simp [String.data_append]

theorem strings.contains_append (s substr a b : String)
    (h : strings.Contains s substr = true) :
    strings.Contains (a ++ s ++ b) substr = true := by
  rw [strings.contains_iff] at h ⊢
  obtain ⟨x, y, hxy⟩ := h
  refine ⟨a ++ x, y ++ b, ?_⟩
  rw [hxy]
  apply String.ext
  simp [String.data_append]

/-! ## Lemmas on `path.Clean` and `path.Join` -/

namespace path

theorem backtrack_le (out : List Char) (dd w : Nat) : backtrack out dd w ≤ w := by
  induction w with
  | zero => simp [backtrack]
  | succ w ih =>
    unfold backtrack
    split
    · omega
    · omega

theorem le_backtrack (out : List Char) (dd w : Nat) (h : dd ≤ w) : dd ≤ backtrack out dd w := by
  induction w with
  | zero => simpa [backtrack] using h
  | succ w ih =>
    unfold backtrack
    split
    · rename_i hc
      exact ih (by omega)
    · exact h

theorem backtrack_slash (out : List Char) (dd w : Nat) (h : dd < backtrack out dd w) :
    out[backtrack out dd w]? = some '/' := by
  induction w with
  | zero => simp [backtrack] at h
  | succ w ih =>
    unfold backtrack at h ⊢
    split
    · rename_i hc
      rw [if_pos hc] at h
      exact ih h
    · rename_i hc
      rw [if_neg hc] at h
      by_contra hne
      exact hc ⟨h, hne⟩

theorem cleanLoop_nil (rooted : Bool) (fuel : Nat) (out : List Char) (dd : Nat) :
    cleanLoop rooted fuel [] out dd = out := by
  cases fuel <;> rfl

theorem lookahead_slash (t s : List Char) :
    (t ++ '/' :: s = [] ∨ (t ++ '/' :: s).head? = some '/') ↔ (t = [] ∨ t.head? = some '/') := by
  cases t <;> simp

theorem lookahead_dotdot (t s : List Char) :
    ((t ++ '/' :: s).head? = some '.' ∧
        ((t ++ '/' :: s).tail = [] ∨ (t ++ '/' :: s).tail.head? = some '/')) ↔
      (t.head? = some '.' ∧ (t.tail = [] ∨ t.tail.head? = some '/')) := by
  cases t with
  | nil => simp
  | cons a t =>
    simp only [List.cons_append, List.head?_cons, List.tail_cons]
    rw [lookahead_slash]

theorem takeWhile_append_slash (l s : List Char) :
    (l ++ '/' :: s).takeWhile (· ≠ '/') = l.takeWhile (· ≠ '/') := by
  induction l with
  | nil => simp
  | cons a l ih =>
    rw [List.cons_append, List.takeWhile_cons, List.takeWhile_cons, ih]

theorem dropWhile_append_slash (l s : List Char) :
    (l ++ '/' :: s).dropWhile (· ≠ '/') = l.dropWhile (· ≠ '/') ++ '/' :: s := by
  induction l with
  | nil => simp
  | cons a l ih =>
    rw [List.cons_append, List.dropWhile_cons, List.dropWhile_cons, ih]
    split <;> rfl

theorem cleanStep_append (rooted : Bool) (c : Char) (t out : List Char) (dd : Nat)
    (s : List Char) :
    cleanStep rooted c (t ++ '/' :: s) out dd =
      ((cleanStep rooted c t out dd).1 ++ '/' :: s, (cleanStep rooted c t out dd).2.1,
        (cleanStep rooted c t out dd).2.2) := by
  unfold cleanStep
  simp only [lookahead_slash, lookahead_dotdot]
  by_cases h1 : c = '/'
  · simp [h1]
  · rw [if_neg h1, if_neg h1]
    by_cases h2 : c = '.' ∧ (t = [] ∨ t.head? = some '/')
    · rw [if_pos h2, if_pos h2]
    · rw [if_neg h2, if_neg h2]
      by_cases h3 : c = '.' ∧ t.head? = some '.' ∧ (t.tail = [] ∨ t.tail.head? = some '/')
      · rw [if_pos h3, if_pos h3]
        have hne : t ≠ [] := by
          intro h
          simp [h] at h3
        have htail : (t ++ '/' :: s).tail = t.tail ++ '/' :: s := by
          cases t with
          | nil => exact absurd rfl hne
          | cons a t => rfl
        rw [htail]
        split
        · rfl
        · split <;> rfl
      · rw [if_neg h3, if_neg h3]
        have e1 : (c :: (t ++ '/' :: s)) = (c :: t) ++ '/' :: s := rfl
        rw [e1, takeWhile_append_slash, dropWhile_append_slash]

theorem cleanStep_length (rooted : Bool) (c : Char) (t out : List Char) (dd : Nat) :
    (cleanStep rooted c t out dd).1.length ≤ t.length := by
  unfold cleanStep
  split
  · exact le_refl _
  · split
    · exact le_refl _
    · split
      · have : t.tail.length ≤ t.length := by simp
        split
        · exact this
        · split <;> exact this
      · rename_i h1 _ _
        have : (c :: t).dropWhile (· ≠ '/') = t.dropWhile (· ≠ '/') := by
          simp [List.dropWhile, h1]
        show ((c :: t).dropWhile (· ≠ '/')).length ≤ t.length
        rw [this]
        exact (List.dropWhile_sublist _).length_le

end path

namespace path

theorem cleanLoop_fuel (rooted : Bool) (f1 f2 : Nat) (rest out : List Char) (dd : Nat)
    (h1 : rest.length ≤ f1) (h2 : rest.length ≤ f2) :
    cleanLoop rooted f1 rest out dd = cleanLoop rooted f2 rest out dd := by
  induction f1 generalizing f2 rest out dd with
  | zero =>
    have hr : rest = [] := List.length_eq_zero.mp (Nat.le_zero.mp h1)
    subst hr
    rw [cleanLoop_nil, cleanLoop_nil]
  | succ f1 ih =>
    cases rest with
    | nil => rw [cleanLoop_nil, cleanLoop_nil]
    | cons c t =>
      cases f2 with
      | zero => simp at h2
      | succ f2 =>
        unfold cleanLoop
        have := cleanStep_length rooted c t out dd
        simp only [List.length_cons] at h1 h2
        exact ih _ _ _ _ (by omega) (by omega)

theorem cleanStep_elem (rooted : Bool) (c : Char) (t out : List Char) (dd : Nat)
    (h1 : c ≠ '/') (h2 : ¬ (c = '.' ∧ (t = [] ∨ t.head? = some '/')))
    (h3 : ¬ (c = '.' ∧ t.head? = some '.' ∧ (t.tail = [] ∨ t.tail.head? = some '/'))) :
    cleanStep rooted c t out dd =
      ((c :: t).dropWhile (· ≠ '/'), appendElem rooted out ((c :: t).takeWhile (· ≠ '/')), dd) := by
  unfold cleanStep
  rw [if_neg h1, if_neg h2, if_neg h3]
  rfl

theorem takeWhile_no_slash (l : List Char) (h : '/' ∉ l) : l.takeWhile (· ≠ '/') = l := by
  rw [List.takeWhile_eq_self_iff]
  intro x hx
  simp only [ne_eq, decide_not, Bool.not_eq_eq_eq_not, Bool.not_true, decide_eq_false_iff_not]
  rintro rfl
  exact h hx

theorem dropWhile_no_slash (l : List Char) (h : '/' ∉ l) : l.dropWhile (· ≠ '/') = [] := by
  rw [List.dropWhile_eq_nil_iff]
  intro x hx
  simp only [ne_eq, decide_not, Bool.not_eq_eq_eq_not, Bool.not_true, decide_eq_false_iff_not]
  rintro rfl
  exact h hx

theorem cleanLoop_name (rooted : Bool) (name out : List Char) (dd fuel : Nat)
    (hne : name ≠ []) (hs : '/' ∉ name) (hd : name ≠ ['.']) (hdd : name ≠ ['.', '.'])
    (hf : name.length ≤ fuel) :
    cleanLoop rooted fuel name out dd = appendElem rooted out name := by
  cases name with
  | nil => exact absurd rfl hne
  | cons c t =>
    cases fuel with
    | zero => simp at hf
    | succ fuel =>
      have h1 : c ≠ '/' := by
        rintro rfl
        exact hs (List.mem_cons_self _ _)
      have ht : '/' ∉ t := fun h => hs (List.mem_cons_of_mem _ h)
      have hhead : t.head? ≠ some '/' := by
        intro h
        cases t with
        | nil => simp at h
        | cons a t =>
          simp only [List.head?_cons, Option.some.injEq] at h
          exact ht (h ▸ List.mem_cons_self _ _)
      have h2 : ¬ (c = '.' ∧ (t = [] ∨ t.head? = some '/')) := by
        rintro ⟨rfl, h | h⟩
        · exact hd (by rw [h])
        · exact hhead h
      have h3 : ¬ (c = '.' ∧ t.head? = some '.' ∧ (t.tail = [] ∨ t.tail.head? = some '/')) := by
        rintro ⟨rfl, hh, h⟩
        cases t with
        | nil => simp at hh
        | cons a t =>
          simp only [List.head?_cons, Option.some.injEq] at hh
          subst hh
          simp only [List.tail_cons] at h
          rcases h with h | h
          · exact hdd (by rw [h])
          · cases t with
            | nil => simp at h
            | cons b t =>
              simp only [List.head?_cons, Option.some.injEq] at h
              exact ht (h ▸ List.mem_cons_of_mem _ (List.mem_cons_self _ _))
      unfold cleanLoop
      simp only
      rw [cleanStep_elem rooted c t out dd h1 h2 h3, dropWhile_no_slash _ hs,
        takeWhile_no_slash _ hs, cleanLoop_nil]

theorem cleanLoop_append_name (rooted : Bool) (name : List Char)
    (hne : name ≠ []) (hs : '/' ∉ name) (hd : name ≠ ['.']) (hdd : name ≠ ['.', '.'])
    (fuel : Nat) (rest out : List Char) (dd : Nat) (hf : rest.length ≤ fuel) :
    cleanLoop rooted (fuel + name.length + 1) (rest ++ '/' :: name) out dd =
      appendElem rooted (cleanLoop rooted fuel rest out dd) name := by
  induction fuel generalizing rest out dd with
  | zero =>
    have hr : rest = [] := List.length_eq_zero.mp (Nat.le_zero.mp hf)
    subst hr
    have e : (0 + name.length + 1) = name.length + 1 := by omega
    rw [e, List.nil_append]
    unfold cleanLoop
    simp only [cleanStep, if_true]
    rw [cleanLoop_name rooted name out dd _ hne hs hd hdd (le_refl _)]
  | succ fuel ih =>
    cases rest with
    | nil =>
      have e : (fuel + 1 + name.length + 1) = (fuel + 1 + name.length) + 1 := by omega
      rw [e, List.nil_append, cleanLoop_nil]
      unfold cleanLoop
      simp only [cleanStep, if_true]
      rw [cleanLoop_name rooted name out dd _ hne hs hd hdd (by omega)]
    | cons c t =>
      have e : (fuel + 1 + name.length + 1) = (fuel + name.length + 1) + 1 := by omega
      rw [e, List.cons_append]
      unfold cleanLoop
      simp only
      rw [cleanStep_append]
      simp only
      apply ih
      have := cleanStep_length rooted c t out dd
      simp only [List.length_cons] at hf
      omega

end path

namespace path

theorem cleanStep_inv_rooted (c : Char) (t out : List Char) (dd : Nat)
    (h : out.head? = some '/' ∧ dd = 1) :
    (cleanStep true c t out dd).2.1.head? = some '/' ∧ (cleanStep true c t out dd).2.2 = 1 := by
  obtain ⟨hh, hdd⟩ := h
  have hne : out ≠ [] := by
    intro h0
    simp [h0] at hh
  unfold cleanStep
  split
  · exact ⟨hh, hdd⟩
  · split
    · exact ⟨hh, hdd⟩
    · split
      · split
        · rename_i hlen
          refine ⟨?_, hdd⟩
          have hk : dd ≤ backtrack out dd (out.length - 1) := le_backtrack out dd _ (by omega)
          simp only
          rw [List.head?_take, if_neg (by omega)]
          exact hh
        · simp only [Bool.not_true, Bool.false_eq_true, if_false]
          exact ⟨hh, hdd⟩
      · refine ⟨?_, hdd⟩
        simp only
        split
        · rw [List.append_assoc, List.head?_append_of_ne_nil _ hne]
          exact hh
        · rw [List.head?_append_of_ne_nil _ hne]
          exact hh

theorem cleanLoop_inv_rooted (fuel : Nat) (rest out : List Char) (dd : Nat)
    (h : out.head? = some '/' ∧ dd = 1) :
    (cleanLoop true fuel rest out dd).head? = some '/' := by
  induction fuel generalizing rest out dd with
  | zero => exact h.1
  | succ fuel ih =>
    cases rest with
    | nil => exact h.1
    | cons c t =>
      unfold cleanLoop
      exact ih _ _ _ (cleanStep_inv_rooted c t out dd h)

theorem good_of_take (out : List Char) (k : Nat) (hg : Good out) (hk : out[k]? = some '/') :
    Good (out.take k) := by
  rcases hg with h0 | ⟨hh, hds⟩
  · subst h0
    simp at hk
  · cases out with
    | nil => simp at hk
    | cons a l =>
      cases k with
      | zero =>
        simp only [List.getElem?_cons_zero, Option.some.injEq] at hk
        simp [hk] at hh
      | succ k =>
        right
        simp only [List.take_succ_cons, List.head?_cons, List.tail_cons] at hh hds ⊢
        refine ⟨hh, ?_⟩
        rintro ⟨ha, hl⟩
        apply hds
        refine ⟨ha, ?_⟩
        simp only [List.getElem?_cons_succ] at hk
        rcases hl with hl | hl
        · right
          cases l with
          | nil => simp at hk
          | cons b l =>
            cases k with
            | zero => simpa using hk
            | succ k => simp at hl
        · right
          cases l with
          | nil => simp at hl
          | cons b l =>
            cases k with
            | zero => simp at hl
            | succ k => simpa using hl

theorem cleanStep_inv_unrooted (c : Char) (t out : List Char) (dd : Nat)
    (h : dd ≤ out.length ∧ (dd = 0 → Good out) ∧ (dd ≠ 0 → 2 ≤ dd)) :
    (cleanStep false c t out dd).2.2 ≤ (cleanStep false c t out dd).2.1.length ∧
      ((cleanStep false c t out dd).2.2 = 0 → Good (cleanStep false c t out dd).2.1) ∧
      ((cleanStep false c t out dd).2.2 ≠ 0 → 2 ≤ (cleanStep false c t out dd).2.2) := by
  obtain ⟨hle, hg, h2⟩ := h
  unfold cleanStep
  split
  · exact ⟨hle, hg, h2⟩
  · split
    · exact ⟨hle, hg, h2⟩
    · split
      · split
        · rename_i hlen
          have hk1 : dd ≤ backtrack out dd (out.length - 1) := le_backtrack out dd _ (by omega)
          have hk2 : backtrack out dd (out.length - 1) ≤ out.length - 1 := backtrack_le out dd _
          simp only
          refine ⟨?_, ?_, h2⟩
          · rw [List.length_take]
            omega
          · intro hd0
            by_cases hz : backtrack out dd (out.length - 1) = 0
            · rw [hz]
              left
              rfl
            · exact good_of_take out _ (hg hd0) (backtrack_slash out dd _ (by omega))
        · simp only [Bool.not_false, if_true]
          refine ⟨le_refl _, ?_, ?_⟩
          · intro h0
            split at h0 <;> simp at h0
          · intro _
            split <;> simp
      · rename_i h1 hc2 hc3
        simp only [Bool.not_false, Bool.false_eq_true, false_and, true_and, false_or]
        refine ⟨?_, ?_, h2⟩
        · split
          · simp only [List.length_append]
            omega
          · simp only [List.length_append]
            omega
        · intro hd0
          have hgo := hg hd0
          have htw : (c :: t).takeWhile (· ≠ '/') = c :: t.takeWhile (· ≠ '/') := by
            rw [List.takeWhile_cons]
            simp [h1]
          rw [htw]
          by_cases hout : out = []
          · subst hout
            simp only [List.length_nil, ne_eq, not_true_eq_false, if_false, List.nil_append]
            right
            simp only [List.head?_cons, List.tail_cons]
            refine ⟨by simpa using h1, ?_⟩
            rintro ⟨hc, htl⟩
            apply hc2
            refine ⟨by simpa using hc, ?_⟩
            cases t with
            | nil => left; rfl
            | cons b t =>
              right
              rw [List.takeWhile_cons] at htl
              by_cases hb : b = '/'
              · simp [hb]
              · simp [hb] at htl
          · have hlen : out.length ≠ 0 := by
              intro h0
              exact hout (List.length_eq_zero.mp h0)
            rw [if_pos hlen]
            rcases hgo with h0 | ⟨hh, hds⟩
            · exact absurd h0 hout
            · right
              cases out with
              | nil => exact absurd rfl hout
              | cons a l =>
                simp only [List.cons_append, List.head?_cons, List.tail_cons] at hh hds ⊢
                refine ⟨hh, ?_⟩
                rintro ⟨ha, hl⟩
                apply hds
                refine ⟨ha, ?_⟩
                cases l with
                | nil => left; rfl
                | cons b l =>
                  right
                  simpa using hl

theorem cleanLoop_inv_unrooted (fuel : Nat) (rest out : List Char) (dd : Nat)
    (h : dd ≤ out.length ∧ (dd = 0 → Good out) ∧ (dd ≠ 0 → 2 ≤ dd)) :
    cleanLoop false fuel rest out dd ≠ ['.'] ∧ cleanLoop false fuel rest out dd ≠ ['/'] := by
  induction fuel generalizing rest out dd with
  | zero =>
    show out ≠ ['.'] ∧ out ≠ ['/']
    obtain ⟨hle, hg, h2⟩ := h
    by_cases hd : dd = 0
    · rcases hg hd with h0 | ⟨hh, hds⟩
      · subst h0
        simp
      · constructor
        · rintro rfl
          exact hds ⟨rfl, Or.inl rfl⟩
        · rintro rfl
          exact hh rfl
    · have := h2 hd
      constructor <;> (rintro rfl; simp at hle; omega)
  | succ fuel ih =>
    cases rest with
    | nil =>
      rw [cleanLoop_nil]
      exact (cleanLoop_nil false 0 out dd) ▸ (by
        have := @ih [] out dd h
        rwa [cleanLoop_nil] at this)
    | cons c t =>
      unfold cleanLoop
      exact ih _ _ _ (cleanStep_inv_unrooted c t out dd h)

end path

namespace path

theorem Clean_name (name : String) (hne : name.data ≠ []) (hs : '/' ∉ name.data)
    (hd : name.data ≠ ['.']) (hdd : name.data ≠ ['.', '.']) : Clean name = name := by
  have hn : name ≠ "" := by
    rintro rfl
    exact hne rfl
  have hroot : ¬ (name.data.head? = some '/') := by
    intro h
    cases hdata : name.data with
    | nil => exact hne hdata
    | cons a l =>
      rw [hdata] at h hs
      simp only [List.head?_cons, Option.some.injEq] at h
      exact hs (h ▸ List.mem_cons_self _ _)
  unfold Clean
  rw [if_neg hn]
  simp only [hroot, decide_False, Bool.false_eq_true, if_false]
  rw [cleanLoop_name false name.data [] 0 name.length hne hs hd hdd (le_refl _)]
  simp only [appendElem, Bool.false_eq_true, false_and, Bool.not_false, List.length_nil, ne_eq,
    not_true_eq_false, and_false, or_self, if_false, List.nil_append]
  rw [if_neg (by
    intro h
    exact hne (List.length_eq_zero.mp h))]

theorem appendElem_length (rooted : Bool) (out elem : List Char) (h : elem ≠ []) :
    (appendElem rooted out elem).length ≠ 0 := by
  intro h0
  have := List.length_eq_zero.mp h0
  unfold appendElem at this
  exact h (List.append_eq_nil.mp this).2

theorem Clean_append_name (w name : String) (hw : w ≠ "") (hne : name.data ≠ [])
    (hs : '/' ∉ name.data) (hd : name.data ≠ ['.']) (hdd : name.data ≠ ['.', '.']) :
    Clean (w ++ "/" ++ name) = childPath (Clean w) name := by
  have hwd : w.data ≠ [] := by
    intro h
    apply hw
    apply String.ext
    exact h
  have hdata : (w ++ "/" ++ name).data = w.data ++ '/' :: name.data := by
    simp [String.data_append]
  have hcat : w ++ "/" ++ name ≠ "" := by
    intro h
    have := congrArg String.data h
    rw [hdata] at this
    simp at this
  have hlen : (w ++ "/" ++ name).length = w.length + name.length + 1 := by
    show (w ++ "/" ++ name).data.length = w.data.length + name.data.length + 1
    rw [hdata, List.length_append, List.length_cons]
    omega
  have hhead : (w.data ++ '/' :: name.data).head? = w.data.head? :=
    List.head?_append_of_ne_nil _ hwd
  have htail : (w.data ++ '/' :: name.data).tail = w.data.tail ++ '/' :: name.data := by
    cases hwl : w.data with
    | nil => exact absurd hwl hwd
    | cons a l => rfl
  unfold Clean
  rw [if_neg hcat, if_neg hw, hdata, hlen, hhead, htail,
    show name.length = name.data.length from rfl]
  by_cases hroot : w.data.head? = some '/'
  · simp only [hroot, decide_True, if_true]
    rw [cleanLoop_append_name true name.data hne hs hd hdd w.length w.data.tail ['/'] 1
      (by
        show w.data.tail.length ≤ w.data.length
        simp),
      if_neg (appendElem_length _ _ _ hne)]
    have hinv := cleanLoop_inv_rooted w.length w.data.tail ['/'] 1 ⟨rfl, rfl⟩
    generalize cleanLoop true w.length w.data.tail ['/'] 1 = b at hinv ⊢
    cases b with
    | nil => simp at hinv
    | cons a l =>
      simp only [List.head?_cons, Option.some.injEq] at hinv
      subst hinv
      rw [if_neg (by simp)]
      cases l with
      | nil =>
        have e0 : (⟨['/']⟩ : String) = "/" := rfl
        rw [e0]
        unfold childPath appendElem
        rw [if_neg (by decide), if_pos rfl, if_neg (by simp)]
        apply String.ext
        simp [String.data_append]
      | cons b l =>
        have e1 : (⟨'/' :: b :: l⟩ : String) ≠ "." := by
          intro h
          have := congrArg String.data h
          simp at this
        have e2 : (⟨'/' :: b :: l⟩ : String) ≠ "/" := by
          intro h
          have := congrArg String.data h
          simp at this
        unfold childPath appendElem
        rw [if_neg e1, if_neg e2, if_pos (by
          left
          exact ⟨rfl, by simp⟩)]
        apply String.ext
        simp [String.data_append]
  · simp only [hroot, decide_False, Bool.false_eq_true, if_false]
    rw [cleanLoop_append_name false name.data hne hs hd hdd w.length w.data [] 0 (le_refl _),
      if_neg (appendElem_length _ _ _ hne)]
    have hinv := cleanLoop_inv_unrooted w.length w.data [] 0
      ⟨le_refl _, fun _ => Or.inl rfl, fun h => absurd rfl h⟩
    generalize cleanLoop false w.length w.data [] 0 = b at hinv ⊢
    cases b with
    | nil =>
      show (⟨appendElem false [] name.data⟩ : String) = childPath "." name
      unfold childPath appendElem
      rw [if_pos rfl, if_neg (by simp)]
      rfl
    | cons a l =>
      have e1 : (⟨a :: l⟩ : String) ≠ "." := by
        intro h
        have := congrArg String.data h
        exact hinv.1 this
      have e2 : (⟨a :: l⟩ : String) ≠ "/" := by
        intro h
        have := congrArg String.data h
        exact hinv.2 this
      rw [if_neg (by simp)]
      unfold childPath appendElem
      rw [if_neg e1, if_neg e2, if_pos (by
        right
        exact ⟨rfl, by simp⟩)]
      apply String.ext
      simp [String.data_append]

theorem Join_child (w name : String) (hne : name.data ≠ []) (hs : '/' ∉ name.data)
    (hd : name.data ≠ ['.']) (hdd : name.data ≠ ['.', '.']) :
    Join [w, name] = childPath (Clean w) name := by
  have hnl : name.length ≠ 0 := by
    intro h
    exact hne (List.length_eq_zero.mp h)
  have hn : name ≠ "" := by
    rintro rfl
    exact hne rfl
  unfold Join
  simp only [List.map_cons, List.map_nil, List.sum_cons, List.sum_nil]
  rw [if_neg (by omega)]
  by_cases hw : w = ""
  · subst hw
    have : joinBuf ["", name] "" = name := by
      simp [joinBuf, hn]
    rw [this, Clean_name name hne hs hd hdd]
    rfl
  · have : joinBuf [w, name] "" = w ++ "/" ++ name := by
      have hwl : w.length > 0 := by
        rcases Nat.eq_zero_or_pos w.length with h | h
        · exfalso
          apply hw
          apply String.ext
          exact List.length_eq_zero.mp h
        · exact h
      simp [joinBuf, hw, hwl]
    rw [this, Clean_append_name w name hw hne hs hd hdd]

end path

namespace path

theorem cleanStep_mem (rooted : Bool) (c : Char) (t out : List Char) (dd : Nat) (x : Char)
    (hx : x ∈ (cleanStep rooted c t out dd).2.1) :
    x ∈ out ∨ x ∈ c :: t ∨ x = '/' ∨ x = '.' := by
  unfold cleanStep at hx
  split at hx
  · exact Or.inl hx
  · split at hx
    · exact Or.inl hx
    · split at hx
      · split at hx
        · exact Or.inl (List.mem_of_mem_take hx)
        · split at hx
          · simp only at hx
            split at hx
            · simp only [List.append_assoc, List.mem_append, List.mem_cons, List.mem_singleton,
                List.not_mem_nil, or_false] at hx
              rcases hx with h | h | h | h
              · exact Or.inl h
              · exact Or.inr (Or.inr (Or.inl h))
              · exact Or.inr (Or.inr (Or.inr h))
              · exact Or.inr (Or.inr (Or.inr h))
            · simp only [List.mem_append, List.mem_cons, List.mem_singleton,
                List.not_mem_nil, or_false] at hx
              rcases hx with h | h | h
              · exact Or.inl h
              · exact Or.inr (Or.inr (Or.inr h))
              · exact Or.inr (Or.inr (Or.inr h))
          · exact Or.inl hx
      · simp only at hx
        rw [List.mem_append] at hx
        rcases hx with h | h
        · split at h
          · rw [List.mem_append, List.mem_singleton] at h
            rcases h with h | h
            · exact Or.inl h
            · exact Or.inr (Or.inr (Or.inl h))
          · exact Or.inl h
        · exact Or.inr (Or.inl ((List.takeWhile_sublist _).subset h))

theorem cleanStep_rest_mem (rooted : Bool) (c : Char) (t out : List Char) (dd : Nat) (x : Char)
    (hx : x ∈ (cleanStep rooted c t out dd).1) : x ∈ c :: t := by
  unfold cleanStep at hx
  split at hx
  · exact List.mem_cons_of_mem _ hx
  · split at hx
    · exact List.mem_cons_of_mem _ hx
    · split at hx
      · have : x ∈ t.tail := by
          split at hx
          · exact hx
          · split at hx <;> exact hx
        exact List.mem_cons_of_mem _ (List.mem_of_mem_tail this)
      · simp only at hx
        exact (List.dropWhile_sublist _).subset hx

theorem cleanLoop_mem (rooted : Bool) (fuel : Nat) (rest out : List Char) (dd : Nat) (x : Char)
    (hx : x ∈ cleanLoop rooted fuel rest out dd) :
    x ∈ out ∨ x ∈ rest ∨ x = '/' ∨ x = '.' := by
  induction fuel generalizing rest out dd with
  | zero => exact Or.inl hx
  | succ fuel ih =>
    cases rest with
    | nil => exact Or.inl hx
    | cons c t =>
      unfold cleanLoop at hx
      rcases ih _ _ _ hx with h | h | h | h
      · exact cleanStep_mem rooted c t out dd x h
      · exact Or.inr (Or.inl (cleanStep_rest_mem rooted c t out dd x h))
      · exact Or.inr (Or.inr (Or.inl h))
      · exact Or.inr (Or.inr (Or.inr h))

theorem Clean_mem (p : String) (x : Char) (hx : x ∈ (Clean p).data) :
    x ∈ p.data ∨ x = '/' ∨ x = '.' := by
  have hdot : x ∈ (".").data → x = '.' := by
    intro h
    simpa using h
  unfold Clean at hx
  by_cases h0 : p = ""
  · rw [if_pos h0] at hx
    exact Or.inr (Or.inr (hdot hx))
  · rw [if_neg h0] at hx
    by_cases hr : p.data.head? = some '/'
    · simp only [hr, decide_True, if_true] at hx
      by_cases hl : (cleanLoop true p.length p.data.tail ['/'] 1).length = 0
      · rw [if_pos hl] at hx
        exact Or.inr (Or.inr (hdot hx))
      · rw [if_neg hl] at hx
        rcases cleanLoop_mem _ _ _ _ _ _ hx with h | h | h | h
        · right; left
          simpa using h
        · exact Or.inl (List.mem_of_mem_tail h)
        · exact Or.inr (Or.inl h)
        · exact Or.inr (Or.inr h)
    · simp only [hr, decide_False, Bool.false_eq_true, if_false] at hx
      by_cases hl : (cleanLoop false p.length p.data [] 0).length = 0
      · rw [if_pos hl] at hx
        exact Or.inr (Or.inr (hdot hx))
      · rw [if_neg hl] at hx
        rcases cleanLoop_mem _ _ _ _ _ _ hx with h | h | h | h
        · simp at h
        · exact Or.inl h
        · exact Or.inr (Or.inl h)
        · exact Or.inr (Or.inr h)

theorem childPath_mem (dir name : String) (x : Char) (hx : x ∈ (childPath dir name).data) :
    x ∈ dir.data ∨ x = '/' ∨ x ∈ name.data := by
  unfold childPath at hx
  split at hx
  · exact Or.inr (Or.inr hx)
  · split at hx
    · rw [String.data_append, List.mem_append] at hx
      rcases hx with h | h
      · right; left
        simpa using h
      · exact Or.inr (Or.inr h)
    · rw [String.data_append, String.data_append, List.mem_append, List.mem_append] at hx
      rcases hx with (h | h) | h
      · exact Or.inl h
      · right; left
        simpa using h
      · exact Or.inr (Or.inr h)

end path

/-! ## Lemmas on `strings.Split` at a blank -/

namespace strings

theorem indexFrom_blank_none (s : List Char) (i : Nat) (h : ' ' ∉ s) :
    indexFrom [' '] s i = -1 := by
  induction s generalizing i with
  | nil => simp [indexFrom]
  | cons c t ih =>
    have hc : c ≠ ' ' := by
      rintro rfl
      exact h (List.mem_cons_self _ _)
    have ht : ' ' ∉ t := fun hm => h (List.mem_cons_of_mem _ hm)
    unfold indexFrom
    rw [if_neg (by simpa [List.isPrefixOf] using fun h => hc h.symm)]
    exact ih (i + 1) ht

theorem indexFrom_blank_first (a b : List Char) (i : Nat) (h : ' ' ∉ a) :
    indexFrom [' '] (a ++ ' ' :: b) i = ((i + a.length : Nat) : Int) := by
  induction a generalizing i with
  | nil => simp [indexFrom, List.isPrefixOf]
  | cons c t ih =>
    have hc : c ≠ ' ' := by
      rintro rfl
      exact h (List.mem_cons_self _ _)
    have ht : ' ' ∉ t := fun hm => h (List.mem_cons_of_mem _ hm)
    rw [List.cons_append]
    unfold indexFrom
    rw [if_neg (by simpa [List.isPrefixOf] using fun h => hc h.symm), ih (i + 1) ht]
    simp only [List.length_cons]
    congr 1
    omega

theorem Index_blank_none (s : String) (h : ' ' ∉ s.data) : Index s " " = -1 :=
  indexFrom_blank_none s.data 0 h

theorem Index_blank_first (a b : String) (h : ' ' ∉ a.data) :
    Index (a ++ " " ++ b) " " = (a.length : Int) := by
  unfold Index
  have : (a ++ " " ++ b).data = a.data ++ ' ' :: b.data := by
    simp [String.data_append]
  rw [this]
  show indexFrom [' '] (a.data ++ ' ' :: b.data) 0 = ((a.data.length : Nat) : Int)
  rw [indexFrom_blank_first a.data b.data 0 h, Nat.zero_add]

theorem sliceTo_append (a b : String) : sliceTo (a ++ " " ++ b) (a.length + 0) = a := by
  apply String.ext
  show (a ++ " " ++ b).data.take (a.data.length + 0) = a.data
  have hd : (a ++ " " ++ b).data = a.data ++ ' ' :: b.data := by
    simp [String.data_append]
  rw [hd, Nat.add_zero]
  exact List.take_left' rfl

theorem sliceFrom_append (a b : String) :
    sliceFrom (a ++ " " ++ b) (a.length + (" " : String).length) = b := by
  apply String.ext
  show (a ++ " " ++ b).data.drop (a.data.length + 1) = b.data
  have hd : (a ++ " " ++ b).data = (a.data ++ [' ']) ++ b.data := by
    simp [String.data_append]
  rw [hd]
  exact List.drop_left' (by simp)

theorem countLoop_blank (fuel : Nat) (s : String) (n : Nat) (h : s.length < fuel) :
    countLoop " " fuel s n = n + s.data.count ' ' := by
  induction fuel generalizing s n with
  | zero => omega
  | succ fuel ih =>
    unfold countLoop
    by_cases hm : ' ' ∈ s.data
    · obtain ⟨a, b, hab, ha⟩ := List.eq_append_cons_of_mem hm
      have hs : s = (⟨a⟩ : String) ++ " " ++ ⟨b⟩ := by
        apply String.ext
        simp [String.data_append, hab]
      have hidx : Index s " " = ((⟨a⟩ : String).length : Int) := by
        rw [hs]
        exact Index_blank_first ⟨a⟩ ⟨b⟩ ha
      simp only [hidx]
      rw [if_neg (by omega), Int.toNat_ofNat]
      have hsl : sliceFrom s ((⟨a⟩ : String).length + (" " : String).length) = ⟨b⟩ := by
        rw [hs]
        exact sliceFrom_append ⟨a⟩ ⟨b⟩
      rw [hsl, ih ⟨b⟩ (n + 1) (by
        have : s.length = a.length + 1 + b.length := by
          show s.data.length = _
          rw [hab]
          simp only [List.length_append, List.length_cons]
          omega
        show b.length < fuel
        omega)]
      rw [hab]
      simp only [List.count_append, List.count_cons_self, List.count_eq_zero_of_not_mem ha]
      omega
    · simp only [Index_blank_none s hm, if_true]
      rw [List.count_eq_zero_of_not_mem hm]
      rfl

theorem Count_blank (s : String) : Count s " " = s.data.count ' ' := by
  unfold Count
  rw [if_neg (by decide), countLoop_blank _ _ _ (Nat.lt_succ_self _)]
  omega

theorem Split_blank_eq (s : String) :
    Split s " " = splitLoop " " 0 (s.data.count ' ') s := by
  unfold Split genSplit
  rw [if_neg (by decide), if_neg (by decide)]
  simp only [Count_blank]
  rfl

theorem Split_blank_none (s : String) (h : ' ' ∉ s.data) : Split s " " = [s] := by
  rw [Split_blank_eq, List.count_eq_zero_of_not_mem h]
  rfl

theorem Split_blank_cons (a b : String) (h : ' ' ∉ a.data) :
    Split (a ++ " " ++ b) " " = a :: Split b " " := by
  rw [Split_blank_eq, Split_blank_eq]
  have hc : (a ++ " " ++ b).data.count ' ' = b.data.count ' ' + 1 := by
    have : (a ++ " " ++ b).data = a.data ++ ' ' :: b.data := by
      simp [String.data_append]
    rw [this]
    simp only [List.count_append, List.count_cons_self, List.count_eq_zero_of_not_mem h]
    omega
  rw [hc]
  conv => lhs; unfold splitLoop
  simp only [Index_blank_first a b h]
  rw [if_neg (by omega), Int.toNat_ofNat, sliceTo_append, sliceFrom_append]

theorem Split_blank_length (s : String) : (Split s " ").length = s.data.count ' ' + 1 := by
  rw [Split_blank_eq]
  generalize hk : s.data.count ' ' = k
  induction k generalizing s with
  | zero => rfl
  | succ k ih =>
    have hm : ' ' ∈ s.data := by
      rw [← List.count_pos_iff]
      omega
    obtain ⟨a, b, hab, ha⟩ := List.eq_append_cons_of_mem hm
    have hs : s = (⟨a⟩ : String) ++ " " ++ ⟨b⟩ := by
      apply String.ext
      simp [String.data_append, hab]
    have hb : (⟨b⟩ : String).data.count ' ' = k := by
      rw [hab] at hk
      simp only [List.count_append, List.count_cons_self, List.count_eq_zero_of_not_mem ha] at hk
      show b.count ' ' = k
      omega
    subst hs
    conv => lhs; unfold splitLoop
    simp only [Index_blank_first ⟨a⟩ ⟨b⟩ ha]
    rw [if_neg (by omega), Int.toNat_ofNat, sliceTo_append, sliceFrom_append, List.length_cons,
      ih ⟨b⟩ hb]

end strings

/-! ## The bindings: `Compile`, `GetRunArgs`, `IsCompileError` -/

theorem strings.Split_blank_ne_nil (s : String) : strings.Split s " " ≠ [] := by
  intro h
  have := strings.Split_blank_length s
  rw [h] at this
  simp at this

/-- C4: on both Python bindings, for every provider state, every source text it may hold
(well-formed or not) and every world, `Compile` returns exactly `(true, "")`, starts no
process (the log of spawned processes is the one before the call; the whole world is),
and returns the provider with every field unchanged. -/
theorem C4_compile_is_noop (prov2 : Py2CompileProvider) (prov3 : Py3CompileProvider)
    (code : String) (w : World) :
    let p2 : Py2CompileProvider :=
      { toCodeCompileProvider := { prov2.toCodeCompileProvider with codeContent := code } }
    let p3 : Py3CompileProvider :=
      { toCodeCompileProvider := { prov3.toCodeCompileProvider with codeContent := code } }
    (p2.Compile w).1 = (true, "") ∧ (p2.Compile w).2.1 = p2 ∧
      (p2.Compile w).2.2.spawned = w.spawned ∧ (p2.Compile w).2.2 = w ∧
      (p3.Compile w).1 = (true, "") ∧ (p3.Compile w).2.1 = p3 ∧
      (p3.Compile w).2.2.spawned = w.spawned ∧ (p3.Compile w).2.2 = w :=
  ⟨rfl, rfl, rfl, rfl, rfl, rfl, rfl, rfl⟩

/-- C3, refuted as stated: the provider fresh from `NewPy3CompileProvider` is not ready,
yet `Compile` reports success and `GetRunArgs` returns an argument vector (whose last
element, the source path, is empty); the same on the Python 2 binding. -/
theorem C3_counterexample :
    NewPy3CompileProvider.IsReady = false ∧
      (NewPy3CompileProvider.Compile workWorld).1 = (true, "") ∧
      NewPy3CompileProvider.GetRunArgs CompileCommands = ["python3", "-u", ""] ∧
      NewPy2CompileProvider.IsReady = false ∧
      (NewPy2CompileProvider.Compile workWorld).1 = (true, "") ∧
      NewPy2CompileProvider.GetRunArgs CompileCommands = ["python", "-u", ""] := by
  decide

/-- C3, amended: on both bindings neither `Compile` nor `GetRunArgs` looks at the
readiness flag. On a provider that is not ready `Compile` still returns `(true, "")`, and
`GetRunArgs` returns, without any failure, the non-empty vector it returns for the ready
provider with the same fields; the only trace of the misuse is that `IsReady` is false. -/
theorem C3_no_readiness_check (prov2 : Py2CompileProvider) (prov3 : Py3CompileProvider)
    (cmds : CompileCommandsStruct) (w : World)
    (h2 : prov2.IsReady = false) (h3 : prov3.IsReady = false) :
    (prov2.Compile w).1 = (true, "") ∧
      prov2.GetRunArgs cmds =
        Py2CompileProvider.GetRunArgs cmds
          { toCodeCompileProvider := { prov2.toCodeCompileProvider with isReady := true } } ∧
      prov2.GetRunArgs cmds ≠ [] ∧
      (prov2.Compile w).2.1.IsReady = false ∧
      (prov3.Compile w).1 = (true, "") ∧
      prov3.GetRunArgs cmds =
        Py3CompileProvider.GetRunArgs cmds
          { toCodeCompileProvider := { prov3.toCodeCompileProvider with isReady := true } } ∧
      prov3.GetRunArgs cmds ≠ [] ∧
      (prov3.Compile w).2.1.IsReady = false :=
  ⟨rfl, rfl, strings.Split_blank_ne_nil _, h2, rfl, rfl, strings.Split_blank_ne_nil _, h3⟩

/-- Witness of C3 (amended) at the two fresh providers. -/
theorem C3_no_readiness_check_witness :
    (NewPy2CompileProvider.Compile workWorld).1 = (true, "") ∧
      NewPy2CompileProvider.GetRunArgs CompileCommands ≠ [] ∧
      (NewPy3CompileProvider.Compile workWorld).1 = (true, "") ∧
      NewPy3CompileProvider.GetRunArgs CompileCommands ≠ [] :=
  have h := C3_no_readiness_check NewPy2CompileProvider NewPy3CompileProvider CompileCommands
    workWorld rfl rfl
  ⟨h.1, h.2.2.1, h.2.2.2.2.1, h.2.2.2.2.2.2.1⟩

/-- C6: for every stderr text `s`, `IsCompileError s` is true on the Python 2 binding, and
on the Python 3 binding, exactly when `s` holds one of the literal texts `SyntaxError`,
`IndentationError`, `ImportError` (is `a ++ marker ++ b` for some `a`, `b`); so the two
bindings agree on every input whatever their states, and text put before and after a
flagged `s` leaves it flagged. -/
theorem C6_is_compile_error (prov2 : Py2CompileProvider) (prov3 : Py3CompileProvider)
    (s : String) :
    (prov2.IsCompileError s = true ↔
        (∃ a b : String, s = a ++ "SyntaxError" ++ b) ∨
          (∃ a b : String, s = a ++ "IndentationError" ++ b) ∨
          (∃ a b : String, s = a ++ "ImportError" ++ b)) ∧
      (prov3.IsCompileError s = true ↔
        (∃ a b : String, s = a ++ "SyntaxError" ++ b) ∨
          (∃ a b : String, s = a ++ "IndentationError" ++ b) ∨
          (∃ a b : String, s = a ++ "ImportError" ++ b)) ∧
      (∀ (q2 : Py2CompileProvider) (q3 : Py3CompileProvider),
        q2.IsCompileError s = prov2.IsCompileError s ∧
          q3.IsCompileError s = prov2.IsCompileError s) ∧
      (∀ p q : String, prov2.IsCompileError s = true →
        prov2.IsCompileError (p ++ s ++ q) = true ∧ prov3.IsCompileError (p ++ s ++ q) = true) := by
  have key : ∀ t : String,
      (strings.Contains t "SyntaxError" || strings.Contains t "IndentationError" ||
          strings.Contains t "ImportError") = true ↔
        (∃ a b : String, t = a ++ "SyntaxError" ++ b) ∨
          (∃ a b : String, t = a ++ "IndentationError" ++ b) ∨
          (∃ a b : String, t = a ++ "ImportError" ++ b) := by
    intro t
    rw [Bool.or_eq_true, Bool.or_eq_true, strings.contains_iff, strings.contains_iff,
      strings.contains_iff, or_assoc]
  refine ⟨key s, key s, fun _ _ => ⟨rfl, rfl⟩, ?_⟩
  intro p q h
  have h' : (strings.Contains s "SyntaxError" || strings.Contains s "IndentationError" ||
      strings.Contains s "ImportError") = true := h
  have goal : (strings.Contains (p ++ s ++ q) "SyntaxError" ||
      strings.Contains (p ++ s ++ q) "IndentationError" ||
      strings.Contains (p ++ s ++ q) "ImportError") = true := by
    rw [Bool.or_eq_true, Bool.or_eq_true] at h' ⊢
    rcases h' with (h1 | h1) | h1
    · exact Or.inl (Or.inl (strings.contains_append _ _ _ _ h1))
    · exact Or.inl (Or.inr (strings.contains_append _ _ _ _ h1))
    · exact Or.inr (strings.contains_append _ _ _ _ h1)
  exact ⟨goal, goal⟩

/-- Witness of C6 at the stderr text of a Python syntax error. -/
theorem C6_is_compile_error_witness :
    NewPy2CompileProvider.IsCompileError "SyntaxError: invalid syntax" = true ∧
      NewPy3CompileProvider.IsCompileError ">> SyntaxError: invalid syntax <<" = true :=
  have h := C6_is_compile_error NewPy2CompileProvider NewPy3CompileProvider
    "SyntaxError: invalid syntax"
  have h0 : NewPy2CompileProvider.IsCompileError "SyntaxError: invalid syntax" = true := by
    decide
  ⟨h0, (h.2.2.2 ">> " " <<" h0).2⟩

/-- C7: for every command line and every runner, with the tokens being the pieces of
the line between blanks (`strings.Split commands " "`, a piece may be empty): when there
are fewer than two tokens (exactly when the line holds no blank) `shell` returns
`(false, "not enough arguments for compiler")` and the runner is not invoked (the world,
with its record of started processes, is the one before the call); otherwise the runner
is invoked exactly once, with the first token as the executable name and the remaining
tokens, in order, as its arguments: the record grows by that one call, and the result of
`shell` is the answer of the runner to exactly these options (its error text when it
returns an error, its standard error when it reports no success, `(true, "")` when it
reports success). The provider is never changed. -/
theorem C7_shell_arguments (RunUnixShell : ShellOptions → ShellResult × Option GoError)
    (prov : CodeCompileProvider) (commands : String) (w : World) :
    ((strings.Split commands " ").length < 2 ↔ ' ' ∉ commands.data) ∧
      ((strings.Split commands " ").length < 2 →
        (prov.shell RunUnixShell commands w).1 = (false, "not enough arguments for compiler") ∧
          (prov.shell RunUnixShell commands w).2.2 = w) ∧
      (2 ≤ (strings.Split commands " ").length →
        ∃ name args, strings.Split commands " " = name :: args ∧
          (prov.shell RunUnixShell commands w).2.2.spawned = w.spawned ++ [(name, args)] ∧
          (prov.shell RunUnixShell commands w).2.2.files = w.files ∧
          (prov.shell RunUnixShell commands w).2.2 =
            (utils.RunUnixShell RunUnixShell { Name := name, Args := args } w).2 ∧
          (∀ err, (RunUnixShell { Name := name, Args := args }).2 = some err →
            (prov.shell RunUnixShell commands w).1 = (false, err.Error)) ∧
          ((RunUnixShell { Name := name, Args := args }).2 = none →
            (RunUnixShell { Name := name, Args := args }).1.Success = false →
            (prov.shell RunUnixShell commands w).1 =
              (false, (RunUnixShell { Name := name, Args := args }).1.Stderr)) ∧
          ((RunUnixShell { Name := name, Args := args }).2 = none →
            (RunUnixShell { Name := name, Args := args }).1.Success = true →
            (prov.shell RunUnixShell commands w).1 = (true, ""))) ∧
      (prov.shell RunUnixShell commands w).2.1 = prov := by
  refine ⟨?_, ?_, ?_, ?_⟩
  · rw [strings.Split_blank_length, ← List.count_eq_zero]
    omega
  · intro h
    unfold CodeCompileProvider.shell
    simp only
    rw [if_pos (by omega)]
    exact ⟨rfl, rfl⟩
  · intro h
    cases hs : strings.Split commands " " with
    | nil => rw [hs] at h; simp at h
    | cons name args =>
      refine ⟨name, args, rfl, ?_⟩
      unfold CodeCompileProvider.shell utils.RunUnixShell
      simp only [hs]
      rw [hs] at h
      rw [if_neg (by omega)]
      simp only [List.headD_cons, List.tail_cons]
      cases hr : RunUnixShell { Name := name, Args := args } with
      | mk ret e =>
        cases e with
        | some err =>
          refine ⟨rfl, rfl, rfl, ?_, ?_, ?_⟩
          · intro err' he
            injection he with he
            rw [he]
          · intro he
            exact absurd he (by simp)
          · intro he
            exact absurd he (by simp)
        | none =>
          cases hsucc : ret.Success with
          | false =>
            simp only [hsucc]
            refine ⟨rfl, rfl, rfl, ?_, ?_, ?_⟩
            · intro err' he
              exact absurd he (by simp)
            · intro _ _
              rfl
            · intro _ hc
              exact absurd hc (by simp)
          | true =>
            simp only [hsucc]
            refine ⟨rfl, rfl, rfl, ?_, ?_, ?_⟩
            · intro err' he
              exact absurd he (by simp)
            · intro _ hc
              exact absurd hc (by simp)
            · intro _ _
              rfl
  · unfold CodeCompileProvider.shell utils.RunUnixShell
    simp only
    split
    · rfl
    · split
      · rfl
      · split <;> rfl

/-- Witness of C7, with the runner `gccRunner` that tells its options apart: the one-token
line `gcc` starts nothing; the line `gcc a.c -o a` starts `gcc` with its three arguments
and succeeds; the line `gcc a.c` reaches `gcc` with other arguments and returns its
standard error; the line `cc a.c` names another program and returns the runner's error. -/
theorem C7_shell_arguments_witness :
    (CodeCompileProvider.zero.shell gccRunner "gcc" workWorld).1 =
        (false, "not enough arguments for compiler") ∧
      (CodeCompileProvider.zero.shell gccRunner "gcc" workWorld).2.2.spawned = [] ∧
      (CodeCompileProvider.zero.shell gccRunner "gcc a.c -o a" workWorld).2.2.spawned =
        [("gcc", ["a.c", "-o", "a"])] ∧
      (CodeCompileProvider.zero.shell gccRunner "gcc a.c -o a" workWorld).1 = (true, "") ∧
      (CodeCompileProvider.zero.shell gccRunner "gcc a.c" workWorld).1 =
        (false, "gcc: fatal error: no input files") ∧
      (CodeCompileProvider.zero.shell gccRunner "cc a.c" workWorld).1 =
        (false, "executable file not found") := by
  have h1 := C7_shell_arguments gccRunner CodeCompileProvider.zero "gcc" workWorld
  have h2 := C7_shell_arguments gccRunner CodeCompileProvider.zero "gcc a.c -o a" workWorld
  have h3 := C7_shell_arguments gccRunner CodeCompileProvider.zero "gcc a.c" workWorld
  have h4 := C7_shell_arguments gccRunner CodeCompileProvider.zero "cc a.c" workWorld
  obtain ⟨ha, hb⟩ := h1.2.1 (by decide)
  obtain ⟨n2, a2, s2, hsp, _, _, _, _, hok⟩ := h2.2.2.1 (by decide)
  obtain ⟨n3, a3, s3, _, _, _, _, hfail, _⟩ := h3.2.2.1 (by decide)
  obtain ⟨n4, a4, s4, _, _, _, herr, _, _⟩ := h4.2.2.1 (by decide)
  have e2 : strings.Split "gcc a.c -o a" " " = ["gcc", "a.c", "-o", "a"] := by decide
  have e3 : strings.Split "gcc a.c" " " = ["gcc", "a.c"] := by decide
  have e4 : strings.Split "cc a.c" " " = ["cc", "a.c"] := by decide
  rw [e2] at s2
  rw [e3] at s3
  rw [e4] at s4
  injection s2 with hn2 ha2
  injection s3 with hn3 ha3
  injection s4 with hn4 ha4
  subst hn2 ha2 hn3 ha3 hn4 ha4
  refine ⟨ha, ?_, hsp, hok (by decide) (by decide), ?_, ?_⟩
  · rw [hb]
    rfl
  · rw [hfail (by decide) (by decide)]
    decide
  · rw [herr (.errorf "executable file not found") (by decide)]
    rfl

/-! ## `doProblemPackageValidationZip` -/

/-- C10: whenever `validateProblemPackageZip` returns an outcome `(ok, err)`,
`doProblemPackageValidationZip` returns too, and its error is non-nil exactly when
`validate` is true and the validation did not succeed (`ok` false or `err` non-nil); with
`validate` false it returns nil (and writes the warning to the log exactly when the
validation did not succeed); the text of a returned error is exactly
`validate package hash error`, with or without a cause, whose text never appears. -/
theorem C10_validation_error (zipArchive : ZipArchive) (validate : Bool) (w : World)
    (ok : Bool) (err : Option GoError)
    (h : validateProblemPackageZip zipArchive = some (ok, err)) :
    ∃ (r : Option GoError) (w1 : World),
      doProblemPackageValidationZip zipArchive validate w = some (r, w1) ∧
        (r ≠ none ↔ (validate = true ∧ (ok = false ∨ err ≠ none))) ∧
        (validate = false → r = none) ∧
        (∀ e, r = some e → e.Error = "validate package hash error") ∧
        (w1.logged ≠ w.logged ↔ (validate = false ∧ (ok = false ∨ err ≠ none))) := by
  unfold doProblemPackageValidationZip
  rw [h]
  have herr : errors.Errorf "validate package hash error" [] =
      GoError.errorf "validate package hash error" := by decide
  cases ok <;> cases err <;> cases validate <;>
    refine ⟨_, _, rfl, ?_⟩ <;>
    simp [herr, GoError.Error, log.Println]

/-- Witness of C10: an archive whose signature differs from its hash, validated. -/
theorem C10_validation_error_witness :
    validateProblemPackageZip (plainArchive (some [9])) = some (false, none) ∧
      ∃ (r : Option GoError) (w1 : World),
        doProblemPackageValidationZip (plainArchive (some [9])) true workWorld = some (r, w1) ∧
          (r ≠ none ↔ (true = true ∧ (false = false ∨ (none : Option GoError) ≠ none))) ∧
          (true = false → r = none) ∧
          (∀ e, r = some e → e.Error = "validate package hash error") ∧
          (w1.logged ≠ workWorld.logged ↔
            (true = false ∧ (false = false ∨ (none : Option GoError) ≠ none))) :=
  ⟨by decide,
    C10_validation_error (plainArchive (some [9])) true workWorld false none (by decide)⟩

/-! ## `Init` -/

/-- C1, at the failing input: in `readOnlyWorld` the work directory `/tmp/work` exists
(`checkWorkDir` returns nil) and saving the source fails with `permission denied`, yet
`Init` returns nil on both bindings (and leaves the provider not ready). -/
theorem C1_write_failure_returns_nil :
    os.Stat readOnlyWorld "/tmp/work" = none ∧
      (CodeCompileProvider.saveCode
          { NewPy3CompileProvider.toCodeCompileProvider with
            codeContent := "print('x')"
            codeFilePath := "/tmp/work/3f2504e0-4f89-41d3-9a0c-0305e82c3301.py" }
          readOnlyWorld).1 =
        some (.pathError "open" "/tmp/work/3f2504e0-4f89-41d3-9a0c-0305e82c3301.py" .EACCES) ∧
      (NewPy3CompileProvider.Init "print('x')" "/tmp/work" sampleId1 sampleId2 readOnlyWorld).1 =
        none ∧
      (NewPy3CompileProvider.Init "print('x')" "/tmp/work" sampleId1 sampleId2
          readOnlyWorld).2.1.IsReady = false ∧
      (NewPy3CompileProvider.Init "print('x')" "/tmp/work" sampleId1 sampleId2
          readOnlyWorld).2.1.codeFilePath =
        "/tmp/work/3f2504e0-4f89-41d3-9a0c-0305e82c3301.py" ∧
      (NewPy2CompileProvider.Init "print('x')" "/tmp/work" sampleId1 sampleId2 readOnlyWorld).1 =
        none ∧
      (NewPy2CompileProvider.Init "print('x')" "/tmp/work" sampleId1 sampleId2
          readOnlyWorld).2.1.IsReady = false := by
  decide

theorem fmt.Sprintf_ss (a b : String) : fmt.Sprintf "%s%s" [a, b] = a ++ b := by
  show a ++ (b ++ "") = a ++ b
  rw [String.append_empty]

theorem CodeCompileProvider.initFiles_eq (prov : CodeCompileProvider)
    (codeExt programExt id1 id2 : String) (w : World) :
    prov.initFiles codeExt programExt id1 id2 w =
      ((CodeCompileProvider.saveCode
          { prov with
            codeFileName := id1 ++ codeExt
            programFileName := id2 ++ programExt
            codeFilePath := path.Join [prov.workDir, id1 ++ codeExt]
            programFilePath := path.Join [prov.workDir, id2 ++ programExt] } w).1,
        { prov with
          codeFileName := id1 ++ codeExt
          programFileName := id2 ++ programExt
          codeFilePath := path.Join [prov.workDir, id1 ++ codeExt]
          programFilePath := path.Join [prov.workDir, id2 ++ programExt] },
        (CodeCompileProvider.saveCode
          { prov with
            codeFileName := id1 ++ codeExt
            programFileName := id2 ++ programExt
            codeFilePath := path.Join [prov.workDir, id1 ++ codeExt]
            programFilePath := path.Join [prov.workDir, id2 ++ programExt] } w).2) := by
  unfold CodeCompileProvider.initFiles
  simp only [fmt.Sprintf_ss]

theorem os.WriteString_ok (w : World) (name s : String)
    (h : (os.WriteString w name s).1 = none) :
    ∃ content, (os.WriteString w name s).2.node name = some (.file content) ∧
      s.data <+: content.data := by
  unfold os.WriteString at h ⊢
  cases hf : w.fault .write name with
  | some e => simp [hf] at h
  | none =>
    simp only [hf] at h ⊢
    cases hn : w.node name with
    | none => simp [hn] at h
    | some n =>
      cases n with
      | dir => simp [hn] at h
      | file old =>
        refine ⟨s ++ strings.sliceFrom old s.length, ?_, ?_⟩
        · simp [World.node, lookupNode]
        · rw [String.data_append]
          exact List.prefix_append _ _

theorem CodeCompileProvider.saveCode_ok (prov : CodeCompileProvider) (w : World)
    (h : (prov.saveCode w).1 = none) :
    ∃ content, (prov.saveCode w).2.node prov.codeFilePath = some (.file content) ∧
      prov.codeContent.data <+: content.data := by
  unfold CodeCompileProvider.saveCode at h ⊢
  cases ho : os.OpenFile w prov.codeFilePath with
  | mk e w1 =>
    cases e with
    | some e => simp [ho] at h
    | none =>
      simp only [ho] at h ⊢
      exact os.WriteString_ok w1 prov.codeFilePath prov.codeContent h

theorem CodeCompileProvider.saveCode_err (prov : CodeCompileProvider) (w : World) :
    (prov.saveCode w).1 = none ↔
      ((os.OpenFile w prov.codeFilePath).1 = none ∧
        (os.WriteString (os.OpenFile w prov.codeFilePath).2 prov.codeFilePath
          prov.codeContent).1 = none) := by
  unfold CodeCompileProvider.saveCode
  cases ho : os.OpenFile w prov.codeFilePath with
  | mk e w1 =>
    cases e with
    | some e => simp
    | none => simp

theorem CodeCompileProvider.checkWorkDir_eq (prov : CodeCompileProvider) (w : World) :
    (prov.checkWorkDir w = none ↔ os.Stat w prov.workDir = none) ∧
      (∀ e, os.Stat w prov.workDir = some e → os.IsNotExist e = true →
        prov.checkWorkDir w = some (.errorf "work dir not exists")) ∧
      (∀ e, os.Stat w prov.workDir = some e → os.IsNotExist e = false →
        prov.checkWorkDir w = some e) := by
  unfold CodeCompileProvider.checkWorkDir
  have herr : errors.Errorf "work dir not exists" [] = GoError.errorf "work dir not exists" := by
    decide
  cases hs : os.Stat w prov.workDir with
  | none => simp
  | some e =>
    cases hne : os.IsNotExist e <;> simp [herr, hne]

theorem Py2CompileProvider.Init_eq2 (prov : Py2CompileProvider) (code workDir id1 id2 : String)
    (w : World) :
    prov.Init code workDir id1 id2 w =
      ((initCore { prov.toCodeCompileProvider with
            realTime := true, codeContent := code, workDir := workDir, Name := "python2" }
          id1 id2 w).1,
        ⟨(initCore { prov.toCodeCompileProvider with
            realTime := true, codeContent := code, workDir := workDir, Name := "python2" }
          id1 id2 w).2.1⟩,
        (initCore { prov.toCodeCompileProvider with
            realTime := true, codeContent := code, workDir := workDir, Name := "python2" }
          id1 id2 w).2.2) := by
  unfold Py2CompileProvider.Init initCore
  simp only
  split
  · rfl
  · split <;> rfl

theorem Py3CompileProvider.Init_eq3 (prov : Py3CompileProvider) (code workDir id1 id2 : String)
    (w : World) :
    prov.Init code workDir id1 id2 w =
      ((initCore { prov.toCodeCompileProvider with codeContent := code, workDir := workDir }
          id1 id2 w).1,
        ⟨(initCore { prov.toCodeCompileProvider with codeContent := code, workDir := workDir }
          id1 id2 w).2.1⟩,
        (initCore { prov.toCodeCompileProvider with codeContent := code, workDir := workDir }
          id1 id2 w).2.2) := by
  unfold Py3CompileProvider.Init initCore
  simp only
  split
  · rfl
  · split <;> rfl

theorem initCore_spec (p0 : CodeCompileProvider) (id1 id2 : String) (w : World)
    (h0 : p0.isReady = false) :
    ((initCore p0 id1 id2 w).2.1.isReady = true ↔
        (os.Stat w p0.workDir = none ∧
          (os.OpenFile w (path.Join [p0.workDir, id1 ++ ".py"])).1 = none ∧
          (os.WriteString (os.OpenFile w (path.Join [p0.workDir, id1 ++ ".py"])).2
            (path.Join [p0.workDir, id1 ++ ".py"]) p0.codeContent).1 = none)) ∧
      (∀ e, os.Stat w p0.workDir = some e → os.IsNotExist e = true →
        (initCore p0 id1 id2 w).1 = some (.errorf "work dir not exists") ∧
          (initCore p0 id1 id2 w).2.2 = w ∧ (initCore p0 id1 id2 w).2.1 = p0) ∧
      ((initCore p0 id1 id2 w).2.1.isReady = true →
        (initCore p0 id1 id2 w).1 = none ∧
          (initCore p0 id1 id2 w).2.1.codeFilePath = path.Join [p0.workDir, id1 ++ ".py"] ∧
          ∃ content,
            (initCore p0 id1 id2 w).2.2.node (path.Join [p0.workDir, id1 ++ ".py"]) =
                some (.file content) ∧
              p0.codeContent.data <+: content.data) := by
  have hcw := p0.checkWorkDir_eq w
  unfold initCore
  rw [CodeCompileProvider.initFiles_eq]
  cases hc : p0.checkWorkDir w with
  | some err =>
    have hst : os.Stat w p0.workDir ≠ none := fun h => by
      rw [hcw.1.mpr h] at hc
      exact absurd hc (by simp)
    refine ⟨?_, ?_, ?_⟩
    · simp only [h0]
      constructor
      · intro h
        exact absurd h (by simp)
      · intro h
        exact absurd h.1 hst
    · intro e he hne
      rw [hcw.2.1 e he hne] at hc
      injection hc with hc
      subst hc
      exact ⟨rfl, rfl, rfl⟩
    · intro h
      simp only [h0] at h
      exact absurd h (by simp)
  | none =>
    have hst : os.Stat w p0.workDir = none := hcw.1.mp hc
    simp only
    have hsv := CodeCompileProvider.saveCode_err
      { p0 with
        codeFileName := id1 ++ ".py"
        programFileName := id2 ++ ""
        codeFilePath := path.Join [p0.workDir, id1 ++ ".py"]
        programFilePath := path.Join [p0.workDir, id2 ++ ""] } w
    have hok := CodeCompileProvider.saveCode_ok
      { p0 with
        codeFileName := id1 ++ ".py"
        programFileName := id2 ++ ""
        codeFilePath := path.Join [p0.workDir, id1 ++ ".py"]
        programFilePath := path.Join [p0.workDir, id2 ++ ""] } w
    simp only at hsv hok
    cases hs : (CodeCompileProvider.saveCode
      { p0 with
        codeFileName := id1 ++ ".py"
        programFileName := id2 ++ ""
        codeFilePath := path.Join [p0.workDir, id1 ++ ".py"]
        programFilePath := path.Join [p0.workDir, id2 ++ ""] } w) with
    | mk e w1 =>
      rw [hs] at hsv hok
      cases e with
      | some e =>
        simp only at hsv hok ⊢
        refine ⟨?_, ?_, ?_⟩
        · simp only [h0]
          constructor
          · intro h
            exact absurd h (by simp)
          · intro h
            exact absurd (hsv.mpr h.2) (by simp)
        · intro e' he'
          rw [hst] at he'
          exact absurd he' (by simp)
        · intro h
          simp only [h0] at h
          exact absurd h (by simp)
      | none =>
        simp only at hsv hok ⊢
        refine ⟨?_, ?_, ?_⟩
        · constructor
          · intro _
            exact ⟨hst, hsv.mp trivial⟩
          · intro _
            trivial
        · intro e' he'
          rw [hst] at he'
          exact absurd he' (by simp)
        · intro _
          exact ⟨trivial, trivial, hok trivial⟩

/-- C2: on both bindings, for a provider that is not ready before the call, after
`Init(code, workDir)` (`src` being the source path that `Init` computes): `IsReady()` is
true if and only if `os.Stat` found the work directory and the source file was opened and
written without error; when `os.Stat` reports that the work directory does not exist,
`Init` returns the error `work dir not exists`, leaves the world as it was (no file is
opened or written) and the provider not ready; when the open or the write fails the
provider is not ready; and when the provider is ready, `Init` returned nil and the source
file exists and starts with the code. -/
theorem C2_ready_iff_written (prov2 : Py2CompileProvider) (prov3 : Py3CompileProvider)
    (code workDir id1 id2 : String) (w : World)
    (h2 : prov2.IsReady = false) (h3 : prov3.IsReady = false) :
    let src := path.Join [workDir, id1 ++ ".py"]
    let written : Prop :=
      os.Stat w workDir = none ∧ (os.OpenFile w src).1 = none ∧
        (os.WriteString (os.OpenFile w src).2 src code).1 = none
    let r2 := prov2.Init code workDir id1 id2 w
    let r3 := prov3.Init code workDir id1 id2 w
    (r2.2.1.IsReady = true ↔ written) ∧ (r3.2.1.IsReady = true ↔ written) ∧
      (∀ e, os.Stat w workDir = some e → os.IsNotExist e = true →
        r2.1 = some (.errorf "work dir not exists") ∧ r2.2.2 = w ∧ r2.2.1.IsReady = false ∧
          r3.1 = some (.errorf "work dir not exists") ∧ r3.2.2 = w ∧ r3.2.1.IsReady = false) ∧
      (os.Stat w workDir = none →
        ((os.OpenFile w src).1 ≠ none ∨
          (os.WriteString (os.OpenFile w src).2 src code).1 ≠ none) →
        r2.2.1.IsReady = false ∧ r3.2.1.IsReady = false) ∧
      (r2.2.1.IsReady = true → r2.1 = none ∧ r2.2.1.codeFilePath = src ∧
        ∃ content, r2.2.2.node src = some (.file content) ∧ code.data <+: content.data) ∧
      (r3.2.1.IsReady = true → r3.1 = none ∧ r3.2.1.codeFilePath = src ∧
        ∃ content, r3.2.2.node src = some (.file content) ∧ code.data <+: content.data) := by
  intro src written r2 r3
  have k2 := initCore_spec
    { prov2.toCodeCompileProvider with
      realTime := true, codeContent := code, workDir := workDir, Name := "python2" }
    id1 id2 w h2
  have k3 := initCore_spec
    { prov3.toCodeCompileProvider with codeContent := code, workDir := workDir } id1 id2 w h3
  have e2 : r2 = _ := Py2CompileProvider.Init_eq2 prov2 code workDir id1 id2 w
  have e3 : r3 = _ := Py3CompileProvider.Init_eq3 prov3 code workDir id1 id2 w
  rw [e2, e3]
  simp only at k2 k3
  have n2 : ∀ b : Bool, (¬ b = true) → b = false := fun b hb => by
    cases b
    · rfl
    · exact absurd rfl hb
  refine ⟨k2.1, k3.1, ?_, ?_, k2.2.2, k3.2.2⟩
  · intro e he hne
    obtain ⟨a1, a2, a3⟩ := k2.2.1 e he hne
    obtain ⟨b1, b2, b3⟩ := k3.2.1 e he hne
    refine ⟨a1, a2, ?_, b1, b2, ?_⟩
    · show (initCore _ id1 id2 w).2.1.isReady = false
      rw [a3]
      exact h2
    · show (initCore _ id1 id2 w).2.1.isReady = false
      rw [b3]
      exact h3
  · intro _ hfail
    have hnw : ¬ written := by
      rintro ⟨_, ho, hwr⟩
      rcases hfail with h | h
      · exact h ho
      · exact h hwr
    exact ⟨n2 _ (fun h => hnw (k2.1.mp h)), n2 _ (fun h => hnw (k3.1.mp h))⟩

/-- Witness of C2: the fresh providers, initialised in a world that holds the work
directory, become ready. -/
theorem C2_ready_iff_written_witness :
    (NewPy2CompileProvider.Init "print('x')" "/tmp/work" sampleId1 sampleId2
        workWorld).2.1.IsReady = true ∧
      (NewPy3CompileProvider.Init "print('x')" "/tmp/work" sampleId1 sampleId2
        workWorld).2.1.IsReady = true :=
  have h := C2_ready_iff_written NewPy2CompileProvider NewPy3CompileProvider "print('x')"
    "/tmp/work" sampleId1 sampleId2 workWorld rfl rfl
  ⟨h.1.mpr (by decide), h.2.1.mpr (by decide)⟩

/-! ## The source path and `GetRunArgs` -/

theorem isLowerHex_ne (c : Char) (h : isLowerHex c = true) : c ≠ ' ' ∧ c ≠ '/' := by
  constructor
  · rintro rfl
    exact absurd h (by decide)
  · rintro rfl
    exact absurd h (by decide)

theorem isCanonicalUUID_spec (id : String) (h : isCanonicalUUID id = true) :
    id.length = 36 ∧ ' ' ∉ id.data ∧ '/' ∉ id.data := by
  unfold isCanonicalUUID at h
  simp only [Bool.and_eq_true, decide_eq_true_eq, List.all_eq_true, Bool.or_eq_true] at h
  obtain ⟨⟨⟨⟨⟨⟨hl, hall⟩, _⟩, _⟩, _⟩, _⟩, _⟩ := h
  refine ⟨hl, ?_, ?_⟩
  · intro hm
    rcases hall _ hm with h | h
    · exact absurd h (by decide)
    · exact (isLowerHex_ne _ h).1 rfl
  · intro hm
    rcases hall _ hm with h | h
    · exact absurd h (by decide)
    · exact (isLowerHex_ne _ h).2 rfl

theorem fileName_valid (id ext : String) (hl : id.length = 36) (hs : '/' ∉ id.data)
    (he : '/' ∉ ext.data) :
    (id ++ ext).data ≠ [] ∧ '/' ∉ (id ++ ext).data ∧ (id ++ ext).data ≠ ['.'] ∧
      (id ++ ext).data ≠ ['.', '.'] := by
  have hlen : 36 ≤ (id ++ ext).data.length := by
    rw [String.data_append, List.length_append]
    have : id.data.length = 36 := hl
    omega
  refine ⟨?_, ?_, ?_, ?_⟩
  · intro h
    rw [h] at hlen
    simp at hlen
  · rw [String.data_append, List.mem_append]
    rintro (h | h)
    · exact hs h
    · exact he h
  · intro h
    rw [h] at hlen
    simp at hlen
  · intro h
    rw [h] at hlen
    simp at hlen

theorem fmt.Sprintf_python3 (x : String) :
    fmt.Sprintf CompileCommands.Python3 [x] = "python3" ++ " " ++ ("-u" ++ " " ++ x) := by
  apply String.ext
  simp [fmt.Sprintf, fmt.sprintfLoop, fmt.extraOperands, CompileCommands, String.data_append]

theorem fmt.Sprintf_python2 (x : String) :
    fmt.Sprintf CompileCommands.Python2 [x] = "python" ++ " " ++ ("-u" ++ " " ++ x) := by
  apply String.ext
  simp [fmt.Sprintf, fmt.sprintfLoop, fmt.extraOperands, CompileCommands, String.data_append]

theorem Py3CompileProvider.GetRunArgs_python3 (prov : Py3CompileProvider) :
    prov.GetRunArgs CompileCommands = "python3" :: "-u" :: strings.Split prov.codeFilePath " " := by
  unfold Py3CompileProvider.GetRunArgs
  simp only
  rw [fmt.Sprintf_python3, strings.Split_blank_cons _ _ (by decide),
    strings.Split_blank_cons _ _ (by decide)]

theorem Py2CompileProvider.GetRunArgs_python2 (prov : Py2CompileProvider) :
    prov.GetRunArgs CompileCommands = "python" :: "-u" :: strings.Split prov.codeFilePath " " := by
  unfold Py2CompileProvider.GetRunArgs
  simp only
  rw [fmt.Sprintf_python2, strings.Split_blank_cons _ _ (by decide),
    strings.Split_blank_cons _ _ (by decide)]

theorem path.Join_no_blank (w name : String) (hne : name.data ≠ []) (hs : '/' ∉ name.data)
    (hd : name.data ≠ ['.']) (hdd : name.data ≠ ['.', '.'])
    (hw : ' ' ∉ w.data) (hn : ' ' ∉ name.data) : ' ' ∉ (path.Join [w, name]).data := by
  rw [path.Join_child w name hne hs hd hdd]
  intro h
  rcases path.childPath_mem _ _ _ h with h | h | h
  · rcases path.Clean_mem _ _ h with h | h | h
    · exact hw h
    · exact absurd h (by decide)
    · exact absurd h (by decide)
  · exact absurd h (by decide)
  · exact hn h

theorem initCore_none (p0 : CodeCompileProvider) (id1 id2 : String) (w : World)
    (h : (initCore p0 id1 id2 w).1 = none) :
    (initCore p0 id1 id2 w).2.1.codeFilePath = path.Join [p0.workDir, id1 ++ ".py"] ∧
      (initCore p0 id1 id2 w).2.1.programFilePath = path.Join [p0.workDir, id2 ++ ""] := by
  unfold initCore at h ⊢
  rw [CodeCompileProvider.initFiles_eq] at h ⊢
  cases hc : p0.checkWorkDir w with
  | some err =>
    rw [hc] at h
    exact absurd h (by simp)
  | none =>
    simp only
    cases hs : (CodeCompileProvider.saveCode
      { p0 with
        codeFileName := id1 ++ ".py"
        programFileName := id2 ++ ""
        codeFilePath := path.Join [p0.workDir, id1 ++ ".py"]
        programFilePath := path.Join [p0.workDir, id2 ++ ""] } w) with
    | mk e w1 =>
      cases e <;> exact ⟨rfl, rfl⟩

/-- C5, refuted as stated: in the existing work directory `/tmp/my work` the Python 3
binding initialises successfully, and `GetRunArgs` returns four elements, the source path
cut in two at the blank, not the three-element vector that ends in the source path. -/
theorem C5_counterexample :
    (NewPy3CompileProvider.Init "print('x')" "/tmp/my work" sampleId1 sampleId2 blankWorld).1 =
        none ∧
      (NewPy3CompileProvider.Init "print('x')" "/tmp/my work" sampleId1 sampleId2
          blankWorld).2.1.IsReady = true ∧
      (NewPy3CompileProvider.Init "print('x')" "/tmp/my work" sampleId1 sampleId2
          blankWorld).2.1.codeFilePath =
        "/tmp/my work/3f2504e0-4f89-41d3-9a0c-0305e82c3301.py" ∧
      (NewPy3CompileProvider.Init "print('x')" "/tmp/my work" sampleId1 sampleId2
          blankWorld).2.1.GetRunArgs CompileCommands =
        ["python3", "-u", "/tmp/my", "work/3f2504e0-4f89-41d3-9a0c-0305e82c3301.py"] := by
  decide

/-- C5, amended: with the default command templates, for every source text and every
work directory whose name holds no blank, after an `Init` that returned nil (the first
identifier drawn being a canonical UUID text) `GetRunArgs()` returns exactly
`["python3", "-u", src]` on the Python 3 binding and `["python", "-u", src]` on the
Python 2 binding, `src` being the provider's source path, the entry `<id>.py` of the
cleaned work directory. `GetRunArgs` changes neither the provider nor the world, so
every later call returns the same vector (also after `Compile`). -/
theorem C5_run_args (prov2 : Py2CompileProvider) (prov3 : Py3CompileProvider)
    (code workDir id1 id2 : String) (w : World)
    (hw : ' ' ∉ workDir.data) (hid : isCanonicalUUID id1 = true)
    (h2 : (prov2.Init code workDir id1 id2 w).1 = none)
    (h3 : (prov3.Init code workDir id1 id2 w).1 = none) :
    let src := path.childPath (path.Clean workDir) (id1 ++ ".py")
    let p2 := (prov2.Init code workDir id1 id2 w).2.1
    let p3 := (prov3.Init code workDir id1 id2 w).2.1
    p3.codeFilePath = src ∧ p3.GetRunArgs CompileCommands = ["python3", "-u", src] ∧
      p2.codeFilePath = src ∧ p2.GetRunArgs CompileCommands = ["python", "-u", src] ∧
      (∀ w1 : World, (p3.Compile w1).2.1.GetRunArgs CompileCommands = ["python3", "-u", src] ∧
        (p2.Compile w1).2.1.GetRunArgs CompileCommands = ["python", "-u", src]) := by
  intro src p2 p3
  obtain ⟨hl, hb, hs⟩ := isCanonicalUUID_spec id1 hid
  obtain ⟨v1, v2, v3, v4⟩ := fileName_valid id1 ".py" hl hs (by decide)
  have hnb : ' ' ∉ (id1 ++ ".py").data := by
    rw [String.data_append, List.mem_append]
    rintro (h | h)
    · exact hb h
    · exact absurd h (by decide)
  have hsrc : path.Join [workDir, id1 ++ ".py"] = src := path.Join_child _ _ v1 v2 v3 v4
  have hblank : ' ' ∉ src.data := by
    rw [← hsrc]
    exact path.Join_no_blank _ _ v1 v2 v3 v4 hw hnb
  have e2 : p2.codeFilePath = src := by
    show (prov2.Init code workDir id1 id2 w).2.1.codeFilePath = src
    rw [Py2CompileProvider.Init_eq2] at h2 ⊢
    rw [← hsrc]
    exact (initCore_none _ id1 id2 w h2).1
  have e3 : p3.codeFilePath = src := by
    show (prov3.Init code workDir id1 id2 w).2.1.codeFilePath = src
    rw [Py3CompileProvider.Init_eq3] at h3 ⊢
    rw [← hsrc]
    exact (initCore_none _ id1 id2 w h3).1
  have g2 : p2.GetRunArgs CompileCommands = ["python", "-u", src] := by
    rw [Py2CompileProvider.GetRunArgs_python2, e2, strings.Split_blank_none _ hblank]
  have g3 : p3.GetRunArgs CompileCommands = ["python3", "-u", src] := by
    rw [Py3CompileProvider.GetRunArgs_python3, e3, strings.Split_blank_none _ hblank]
  exact ⟨e3, g3, e2, g2, fun _ => ⟨g3, g2⟩⟩

/-- Witness of C5 (amended): both fresh providers, initialised in `/tmp/work`. -/
theorem C5_run_args_witness :
    (NewPy3CompileProvider.Init "print('x')" "/tmp/work" sampleId1 sampleId2
        workWorld).2.1.GetRunArgs CompileCommands =
      ["python3", "-u", path.childPath (path.Clean "/tmp/work") (sampleId1 ++ ".py")] ∧
    (NewPy2CompileProvider.Init "print('x')" "/tmp/work" sampleId1 sampleId2
        workWorld).2.1.GetRunArgs CompileCommands =
      ["python", "-u", path.childPath (path.Clean "/tmp/work") (sampleId1 ++ ".py")] :=
  have h := C5_run_args NewPy2CompileProvider NewPy3CompileProvider "print('x')" "/tmp/work"
    sampleId1 sampleId2 workWorld (by decide) (by decide) (by decide) (by decide)
  ⟨h.2.1, h.2.2.2.1⟩

/-! ## The generated paths -/

theorem path.childPath_eq (dir : String) :
    ∃ pre : String, (∀ n : String, path.childPath dir n = pre ++ n) ∧
      (pre = "" ∨ pre = "/" ∨ pre = dir ++ "/") := by
  unfold path.childPath
  by_cases h1 : dir = "."
  · refine ⟨"", fun n => ?_, Or.inl rfl⟩
    rw [if_pos h1, String.empty_append]
  · by_cases h2 : dir = "/"
    · refine ⟨"/", fun n => ?_, Or.inr (Or.inl rfl)⟩
      rw [if_neg h1, if_pos h2]
    · refine ⟨dir ++ "/", fun n => ?_, Or.inr (Or.inr rfl)⟩
      rw [if_neg h1, if_neg h2]

/-- C8: for every work directory and every pair of identifiers of 36 characters without
a slash (equal ones included), after `initFiles(".py", "")` the source path and the
program path differ; the file names are the identifiers with their extensions and hold no
slash; each path is the entry of that name in the cleaned work directory (the cleaned
directory, one slash, the name; no slash after the root, and the bare name in the
current directory); and `Compile` and `Clean` return the provider as it was, so the
paths stay (`GetRunArgs` returns no provider at all). -/
theorem C8_paths_distinct_children (prov : CodeCompileProvider) (id1 id2 : String) (w : World)
    (hl1 : id1.length = 36) (hs1 : '/' ∉ id1.data)
    (hl2 : id2.length = 36) (hs2 : '/' ∉ id2.data) :
    let p := (prov.initFiles ".py" "" id1 id2 w).2.1
    p.codeFilePath ≠ p.programFilePath ∧
      p.codeFileName = id1 ++ ".py" ∧ p.programFileName = id2 ∧
      '/' ∉ p.codeFileName.data ∧ '/' ∉ p.programFileName.data ∧
      p.codeFilePath = path.childPath (path.Clean prov.workDir) p.codeFileName ∧
      p.programFilePath = path.childPath (path.Clean prov.workDir) p.programFileName ∧
      p.workDir = prov.workDir ∧
      (∀ w1 : World,
        (Py2CompileProvider.Compile ⟨p⟩ w1).2.1.toCodeCompileProvider = p ∧
          (Py3CompileProvider.Compile ⟨p⟩ w1).2.1.toCodeCompileProvider = p ∧
          (p.Clean w1).1 = p) := by
  intro p
  have hp : p = _ := congrArg (fun r => r.2.1) (prov.initFiles_eq ".py" "" id1 id2 w)
  simp only at hp
  obtain ⟨a1, a2, a3, a4⟩ := fileName_valid id1 ".py" hl1 hs1 (by decide)
  obtain ⟨b1, b2, b3, b4⟩ := fileName_valid id2 "" hl2 hs2 (by decide)
  have hc : p.codeFilePath = path.childPath (path.Clean prov.workDir) (id1 ++ ".py") := by
    rw [hp]
    exact path.Join_child _ _ a1 a2 a3 a4
  have hg : p.programFilePath = path.childPath (path.Clean prov.workDir) (id2 ++ "") := by
    rw [hp]
    exact path.Join_child _ _ b1 b2 b3 b4
  have hn1 : p.codeFileName = id1 ++ ".py" := by rw [hp]
  have hn2 : p.programFileName = id2 := by
    rw [hp]
    exact String.append_empty _
  refine ⟨?_, hn1, hn2, ?_, ?_, ?_, ?_, ?_, ?_⟩
  · rw [hc, hg]
    obtain ⟨pre, hpre, _⟩ := path.childPath_eq (path.Clean prov.workDir)
    rw [hpre, hpre]
    intro h
    have := congrArg String.length h
    simp only [String.length_append] at this
    have e3 : (".py" : String).length = 3 := rfl
    have e4 : ("" : String).length = 0 := rfl
    omega
  · rw [hn1]
    exact a2
  · rw [hn2]
    exact hs2
  · rw [hc, hn1]
  · rw [hg, hn2, String.append_empty]
  · rw [hp]
  · intro w1
    exact ⟨rfl, rfl, rfl⟩

/-- Witness of C8: one identifier used twice, in the work directory `/tmp//work/`. -/
theorem C8_paths_distinct_children_witness :
    ((({ CodeCompileProvider.zero with workDir := "/tmp//work/" }).initFiles ".py" "" sampleId1
        sampleId1 workWorld).2.1.codeFilePath = "/tmp/work/3f2504e0-4f89-41d3-9a0c-0305e82c3301.py") ∧
      ((({ CodeCompileProvider.zero with workDir := "/tmp//work/" }).initFiles ".py" "" sampleId1
        sampleId1 workWorld).2.1.codeFilePath ≠
      (({ CodeCompileProvider.zero with workDir := "/tmp//work/" }).initFiles ".py" "" sampleId1
        sampleId1 workWorld).2.1.programFilePath) :=
  have h := C8_paths_distinct_children { CodeCompileProvider.zero with workDir := "/tmp//work/" }
    sampleId1 sampleId1 workWorld (by decide) (by decide) (by decide) (by decide)
  ⟨by decide, h.1⟩

/-! ## `Clean` -/

theorem lookupNode_cons (k : String) (v : Node) (t : List (String × Node)) (q : String) :
    lookupNode ((k, v) :: t) q = if k = q then some v else lookupNode t q := rfl

theorem lookupNode_erase (files : List (String × Node)) (name q : String) :
    lookupNode (eraseNode files name) q = if q = name then none else lookupNode files q := by
  induction files with
  | nil =>
    simp [eraseNode, lookupNode]
  | cons e t ih =>
    obtain ⟨k, v⟩ := e
    unfold eraseNode at ih ⊢
    by_cases hk : k = name
    · subst hk
      rw [List.filter_cons_of_neg (by simp), ih, lookupNode_cons]
      by_cases hq : q = k
      · rw [if_pos hq, if_pos hq]
      · rw [if_neg hq, if_neg hq, if_neg (fun h => hq h.symm)]
    · rw [List.filter_cons_of_pos (by simpa using hk), lookupNode_cons, lookupNode_cons]
      by_cases hkq : k = q
      · rw [if_pos hkq, if_pos hkq, if_neg (by
          rintro rfl
          exact hk hkq)]
      · rw [if_neg hkq, if_neg hkq]
        exact ih

theorem hasChild_erase (files : List (String × Node)) (name dir : String)
    (hb : ¬ (dir ++ "/").data.isPrefixOf name.data = true)
    (h : hasChild files dir = true) : hasChild (eraseNode files name) dir = true := by
  unfold hasChild eraseNode at *
  rw [List.any_eq_true] at h ⊢
  obtain ⟨e, he, hpre⟩ := h
  refine ⟨e, ?_, hpre⟩
  rw [List.mem_filter]
  refine ⟨he, ?_⟩
  simp only [ne_eq, decide_not, Bool.not_eq_eq_eq_not, Bool.not_true, decide_eq_false_iff_not]
  rintro rfl
  exact hb hpre

theorem os.Remove_stuck (w : World) (name : String) (h : Stuck w name) :
    (os.Remove w name).2 = w := by
  unfold os.Remove
  cases hf : w.fault .remove name with
  | some e => rfl
  | none =>
    simp only
    rcases h with h | h | ⟨h1, h2⟩
    · exact absurd hf h
    · rw [h]
    · rw [h1]
      simp only
      rw [if_pos h2]

theorem os.Remove_erase (w : World) (name : String) (h : ¬ Stuck w name) :
    (os.Remove w name).2 = { w with files := eraseNode w.files name } := by
  unfold Stuck at h
  simp only [not_or, not_not, not_and] at h
  obtain ⟨hf, hn, hd⟩ := h
  unfold os.Remove
  rw [hf]
  simp only
  cases hnode : w.node name with
  | none => exact absurd hnode hn
  | some n =>
    cases n with
    | file c => rfl
    | dir =>
      simp only
      rw [if_neg (hd hnode)]

theorem os.Remove_after (w : World) (name : String) : Stuck (os.Remove w name).2 name := by
  by_cases h : Stuck w name
  · rw [os.Remove_stuck w name h]
    exact h
  · rw [os.Remove_erase w name h]
    right; left
    show lookupNode (eraseNode w.files name) name = none
    rw [lookupNode_erase, if_pos rfl]

theorem os.Remove_keeps_stuck (w : World) (name other : String)
    (hb : ¬ (name ++ "/").data.isPrefixOf other.data = true) (h : Stuck w name) :
    Stuck (os.Remove w other).2 name := by
  by_cases ho : Stuck w other
  · rw [os.Remove_stuck w other ho]
    exact h
  · rw [os.Remove_erase w other ho]
    rcases h with h | h | ⟨h1, h2⟩
    · exact Or.inl h
    · right; left
      show lookupNode (eraseNode w.files other) name = none
      rw [lookupNode_erase]
      split
      · rfl
      · exact h
    · by_cases hne : name = other
      · right; left
        show lookupNode (eraseNode w.files other) name = none
        rw [lookupNode_erase, if_pos hne]
      · right; right
        constructor
        · show lookupNode (eraseNode w.files other) name = some .dir
          rw [lookupNode_erase, if_neg hne]
          exact h1
        · exact hasChild_erase w.files other name hb h2

theorem os.Remove_node (w : World) (name q : String) :
    (os.Remove w name).2.node q = w.node q ∨
      (q = name ∧ (os.Remove w name).2.node q = none) := by
  by_cases h : Stuck w name
  · rw [os.Remove_stuck w name h]
    exact Or.inl rfl
  · rw [os.Remove_erase w name h]
    show lookupNode (eraseNode w.files name) q = lookupNode w.files q ∨
      (q = name ∧ lookupNode (eraseNode w.files name) q = none)
    rw [lookupNode_erase]
    by_cases hq : q = name
    · rw [if_pos hq]
      exact Or.inr ⟨hq, rfl⟩
    · rw [if_neg hq]
      exact Or.inl rfl

theorem os.Remove_rest (w : World) (name : String) :
    (os.Remove w name).2.fault = w.fault ∧ (os.Remove w name).2.spawned = w.spawned ∧
      (os.Remove w name).2.logged = w.logged := by
  by_cases h : Stuck w name
  · rw [os.Remove_stuck w name h]
    exact ⟨rfl, rfl, rfl⟩
  · rw [os.Remove_erase w name h]
    exact ⟨rfl, rfl, rfl⟩

theorem os.Remove_refused (w : World) (name : String) (h : w.fault .remove name ≠ none) :
    (os.Remove w name).2 = w :=
  os.Remove_stuck w name (Or.inl h)

theorem os.Remove_not_file (w : World) (name : String) (h : w.fault .remove name = none)
    (c : String) : (os.Remove w name).2.node name ≠ some (.file c) := by
  have hs := os.Remove_after w name
  have hf : (os.Remove w name).2.fault .remove name = none := by
    rw [(os.Remove_rest w name).1]
    exact h
  rcases hs with h1 | h1 | ⟨h1, _⟩
  · exact absurd hf h1
  · rw [h1]
    simp
  · rw [h1]
    simp

theorem CodeCompileProvider.Clean_eq (prov : CodeCompileProvider) (w : World) :
    prov.Clean w = (prov, (os.Remove (os.Remove w prov.codeFilePath).2 prov.programFilePath).2) :=
  rfl

theorem initCore_paths (p0 : CodeCompileProvider) (id1 id2 : String) (w : World) :
    ((initCore p0 id1 id2 w).2.1.codeFilePath = p0.codeFilePath ∧
        (initCore p0 id1 id2 w).2.1.programFilePath = p0.programFilePath) ∨
      ((initCore p0 id1 id2 w).2.1.codeFilePath = path.Join [p0.workDir, id1 ++ ".py"] ∧
        (initCore p0 id1 id2 w).2.1.programFilePath = path.Join [p0.workDir, id2 ++ ""]) := by
  cases h : (initCore p0 id1 id2 w).1 with
  | none => exact Or.inr (initCore_none p0 id1 id2 w h)
  | some e =>
    left
    unfold initCore at h ⊢
    rw [CodeCompileProvider.initFiles_eq] at h ⊢
    cases hc : p0.checkWorkDir w with
    | some err => exact ⟨rfl, rfl⟩
    | none =>
      rw [hc] at h
      simp only at h
      cases hs : (CodeCompileProvider.saveCode
        { p0 with
          codeFileName := id1 ++ ".py"
          programFileName := id2 ++ ""
          codeFilePath := path.Join [p0.workDir, id1 ++ ".py"]
          programFilePath := path.Join [p0.workDir, id2 ++ ""] } w) with
      | mk e1 w1 =>
        rw [hs] at h
        cases e1 <;> simp at h

theorem Reachable.siblings (p : CodeCompileProvider) (h : Reachable p) :
    ∃ pre n1 n2 : String, p.codeFilePath = pre ++ n1 ∧ p.programFilePath = pre ++ n2 ∧
      '/' ∉ n1.data ∧ '/' ∉ n2.data := by
  have fresh : ∀ q : CodeCompileProvider, q.codeFilePath = "" → q.programFilePath = "" →
      ∃ pre n1 n2 : String, q.codeFilePath = pre ++ n1 ∧ q.programFilePath = pre ++ n2 ∧
        '/' ∉ n1.data ∧ '/' ∉ n2.data := by
    intro q h1 h2
    exact ⟨"", "", "", by rw [h1]; rfl, by rw [h2]; rfl, by simp, by simp⟩
  have step : ∀ (p0 : CodeCompileProvider) (id1 id2 : String) (w : World),
      isCanonicalUUID id1 = true → isCanonicalUUID id2 = true →
      (∃ pre n1 n2 : String, p0.codeFilePath = pre ++ n1 ∧ p0.programFilePath = pre ++ n2 ∧
        '/' ∉ n1.data ∧ '/' ∉ n2.data) →
      ∃ pre n1 n2 : String, (initCore p0 id1 id2 w).2.1.codeFilePath = pre ++ n1 ∧
        (initCore p0 id1 id2 w).2.1.programFilePath = pre ++ n2 ∧
        '/' ∉ n1.data ∧ '/' ∉ n2.data := by
    intro p0 id1 id2 w hu1 hu2 ih
    rcases initCore_paths p0 id1 id2 w with ⟨e1, e2⟩ | ⟨e1, e2⟩
    · rw [e1, e2]
      exact ih
    · obtain ⟨hl1, _, hs1⟩ := isCanonicalUUID_spec id1 hu1
      obtain ⟨hl2, _, hs2⟩ := isCanonicalUUID_spec id2 hu2
      obtain ⟨a1, a2, a3, a4⟩ := fileName_valid id1 ".py" hl1 hs1 (by decide)
      obtain ⟨b1, b2, b3, b4⟩ := fileName_valid id2 "" hl2 hs2 (by decide)
      obtain ⟨pre, hpre, _⟩ := path.childPath_eq (path.Clean p0.workDir)
      refine ⟨pre, id1 ++ ".py", id2 ++ "", ?_, ?_, a2, b2⟩
      · rw [e1, path.Join_child _ _ a1 a2 a3 a4, hpre]
      · rw [e2, path.Join_child _ _ b1 b2 b3 b4, hpre]
  induction h with
  | newPy2 => exact fresh _ rfl rfl
  | newPy3 => exact fresh _ rfl rfl
  | initPy2 prov code workDir id1 id2 w _ hu1 hu2 ih =>
    rw [Py2CompileProvider.Init_eq2]
    exact step _ id1 id2 w hu1 hu2 ih
  | initPy3 prov code workDir id1 id2 w _ hu1 hu2 ih =>
    rw [Py3CompileProvider.Init_eq3]
    exact step _ id1 id2 w hu1 hu2 ih

theorem Reachable.not_below (p : CodeCompileProvider) (h : Reachable p) :
    ¬ (p.codeFilePath ++ "/").data.isPrefixOf p.programFilePath.data = true := by
  obtain ⟨pre, n1, n2, e1, e2, _, hs2⟩ := Reachable.siblings p h
  intro hpre
  rw [List.isPrefixOf_iff_prefix, e1, e2] at hpre
  simp only [String.data_append, List.append_assoc] at hpre
  rw [List.prefix_append_right_inj] at hpre
  obtain ⟨t, ht⟩ := hpre
  apply hs2
  rw [← ht]
  simp

/-- C9, refuted as stated: in `lockedWorld` the Python 3 binding initialises and writes
its source file; `os.Remove` of that file fails with `permission denied`, `Clean` drops
the error, and the source file is still there after `Clean`. -/
theorem C9_counterexample :
    (NewPy3CompileProvider.Init "print('x')" "/tmp/work" sampleId1 sampleId2
        lockedWorld).2.1.IsReady = true ∧
      (os.Remove
          (NewPy3CompileProvider.Init "print('x')" "/tmp/work" sampleId1 sampleId2 lockedWorld).2.2
          "/tmp/work/3f2504e0-4f89-41d3-9a0c-0305e82c3301.py").1 =
        some (.pathError "remove" "/tmp/work/3f2504e0-4f89-41d3-9a0c-0305e82c3301.py" .EACCES) ∧
      ((NewPy3CompileProvider.Init "print('x')" "/tmp/work" sampleId1 sampleId2
            lockedWorld).2.1.Clean
          (NewPy3CompileProvider.Init "print('x')" "/tmp/work" sampleId1 sampleId2
            lockedWorld).2.2).2.node
          (NewPy3CompileProvider.Init "print('x')" "/tmp/work" sampleId1 sampleId2
            lockedWorld).2.1.codeFilePath =
        some (.file "print('x')") := by
  decide

/-- C9, amended: for every provider state the bindings reach (fresh or initialised) and
every world: `Clean` has no error result and returns the provider unchanged; after one
`Clean`, each of the two paths whose removal the system does not refuse no longer names a
file, while a path whose removal it refuses names what it named before; a second `Clean`
leaves the world exactly as the first left it; and no other path is removed or altered,
nor anything else of the world. -/
theorem C9_clean_best_effort (prov : CodeCompileProvider) (hp : Reachable prov) (w : World) :
    let w1 := (prov.Clean w).2
    (prov.Clean w).1 = prov ∧
      (w.fault .remove prov.codeFilePath = none →
        ∀ c, w1.node prov.codeFilePath ≠ some (.file c)) ∧
      (w.fault .remove prov.programFilePath = none →
        ∀ c, w1.node prov.programFilePath ≠ some (.file c)) ∧
      (w.fault .remove prov.codeFilePath ≠ none →
        w1.node prov.codeFilePath = w.node prov.codeFilePath) ∧
      (w.fault .remove prov.programFilePath ≠ none →
        w1.node prov.programFilePath = w.node prov.programFilePath) ∧
      (prov.Clean w1).2 = w1 ∧
      (∀ q, q ≠ prov.codeFilePath → q ≠ prov.programFilePath → w1.node q = w.node q) ∧
      w1.fault = w.fault ∧ w1.spawned = w.spawned ∧ w1.logged = w.logged := by
  intro w1
  have hw1 : w1 = (os.Remove (os.Remove w prov.codeFilePath).2 prov.programFilePath).2 := rfl
  have hrest1 := os.Remove_rest w prov.codeFilePath
  have hrest2 := os.Remove_rest (os.Remove w prov.codeFilePath).2 prov.programFilePath
  have hfault : w1.fault = w.fault := by
    rw [hw1, hrest2.1, hrest1.1]
  have node_mono : ∀ q, w1.node q = w.node q ∨ w1.node q = none := by
    intro q
    rw [hw1]
    rcases os.Remove_node (os.Remove w prov.codeFilePath).2 prov.programFilePath q with h | h
    · rw [h]
      rcases os.Remove_node w prov.codeFilePath q with h' | h'
      · exact Or.inl h'
      · exact Or.inr h'.2
    · exact Or.inr h.2
  refine ⟨rfl, ?_, ?_, ?_, ?_, ?_, ?_, hfault, ?_, ?_⟩
  · intro hf c
    have h1 := os.Remove_not_file w prov.codeFilePath hf c
    rw [hw1]
    rcases os.Remove_node (os.Remove w prov.codeFilePath).2 prov.programFilePath
      prov.codeFilePath with h | h
    · rw [h]
      exact h1
    · rw [h.2]
      simp
  · intro hf c
    rw [hw1]
    exact os.Remove_not_file _ prov.programFilePath (by rw [hrest1.1]; exact hf) c
  · intro hf
    rw [hw1, os.Remove_refused w prov.codeFilePath hf]
    by_cases he : prov.programFilePath = prov.codeFilePath
    · rw [he, os.Remove_refused w prov.codeFilePath hf]
    · rcases os.Remove_node w prov.programFilePath prov.codeFilePath with h | h
      · exact h
      · exact absurd h.1.symm he
  · intro hf
    rw [hw1, os.Remove_refused _ prov.programFilePath (by rw [hrest1.1]; exact hf)]
    by_cases he : prov.programFilePath = prov.codeFilePath
    · rw [← he, os.Remove_refused w prov.programFilePath hf]
    · rcases os.Remove_node w prov.codeFilePath prov.programFilePath with h | h
      · exact h
      · exact absurd h.1 he
  · have s1 : Stuck w1 prov.codeFilePath := by
      rw [hw1]
      exact os.Remove_keeps_stuck _ prov.codeFilePath prov.programFilePath
        (Reachable.not_below prov hp) (os.Remove_after w prov.codeFilePath)
    have s2 : Stuck w1 prov.programFilePath := by
      rw [hw1]
      exact os.Remove_after _ prov.programFilePath
    rw [CodeCompileProvider.Clean_eq]
    simp only
    rw [os.Remove_stuck w1 _ s1, os.Remove_stuck w1 _ s2]
  · intro q h1 h2
    rw [hw1]
    rcases os.Remove_node (os.Remove w prov.codeFilePath).2 prov.programFilePath q with h | h
    · rw [h]
      rcases os.Remove_node w prov.codeFilePath q with h' | h'
      · exact h'
      · exact absurd h'.1 h1
    · exact absurd h.1 h2
  · rw [hw1, hrest2.2.1, hrest1.2.1]
  · rw [hw1, hrest2.2.2, hrest1.2.2]

/-- Witness of C9 (amended): the Python 3 provider initialised in `/tmp/work`; after
`Clean` its source file is gone, and a second `Clean` changes nothing. -/
theorem C9_clean_best_effort_witness :
    ((NewPy3CompileProvider.Init "print('x')" "/tmp/work" sampleId1 sampleId2
          workWorld).2.1.Clean
        (NewPy3CompileProvider.Init "print('x')" "/tmp/work" sampleId1 sampleId2
          workWorld).2.2).2.node
        (NewPy3CompileProvider.Init "print('x')" "/tmp/work" sampleId1 sampleId2
          workWorld).2.1.codeFilePath = none ∧
      ((NewPy3CompileProvider.Init "print('x')" "/tmp/work" sampleId1 sampleId2
          workWorld).2.1.Clean
        ((NewPy3CompileProvider.Init "print('x')" "/tmp/work" sampleId1 sampleId2
          workWorld).2.1.Clean
        (NewPy3CompileProvider.Init "print('x')" "/tmp/work" sampleId1 sampleId2
          workWorld).2.2).2).2 =
      ((NewPy3CompileProvider.Init "print('x')" "/tmp/work" sampleId1 sampleId2
          workWorld).2.1.Clean
        (NewPy3CompileProvider.Init "print('x')" "/tmp/work" sampleId1 sampleId2
          workWorld).2.2).2 :=
  have h := C9_clean_best_effort
    (NewPy3CompileProvider.Init "print('x')" "/tmp/work" sampleId1 sampleId2
      workWorld).2.1.toCodeCompileProvider
    (Reachable.initPy3 NewPy3CompileProvider "print('x')" "/tmp/work" sampleId1 sampleId2
      workWorld Reachable.newPy3 (by decide) (by decide))
    (NewPy3CompileProvider.Init "print('x')" "/tmp/work" sampleId1 sampleId2 workWorld).2.2
  ⟨by decide, h.2.2.2.2.2.1⟩

end DeerCommon
